import Mathlib

/-
  Verification of the Media Identification & Catalog Reconciliation Engine
  of the movie-scrapper repository.

  Strings are modelled as lists of characters (`Str`).  JavaScript regular
  expressions are translated into executable character-list functions; each
  such function carries a doc comment citing the regex it embeds.  JS `\w`
  is [A-Za-z0-9_], `\d` is [0-9], `\s` is whitespace (here: space, tab, CR,
  LF, FF, VT), `.` matches everything except line terminators.
  Floating-point numbers of the source are modelled as rationals (exact
  arithmetic; the source only compares sums/ratios of small decimal
  constants) except where a logarithm is involved, where real numbers are
  used.
-/

abbrev Str := List Char

/-- JS word character class (regex backslash-w): ASCII letters, digits, underscore. -/
def isWordC (c : Char) : Bool :=
  (('a' ≤ c) && (c ≤ 'z')) || (('A' ≤ c) && (c ≤ 'Z')) || (('0' ≤ c) && (c ≤ '9')) || (c = '_')

/-- JS digit class (regex backslash-d). -/
def isDigitC (c : Char) : Bool := ('0' ≤ c) && (c ≤ '9')

/-- JS whitespace class (regex backslash-s), restricted to the ASCII part. -/
def isWsC (c : Char) : Bool :=
  (c = ' ') || (c = '\t') || (c = '\n') || (c = '\r') || (c = '\x0b') || (c = '\x0c')

/-- JS line terminators, which regex `.` does not match. -/
def isNlC (c : Char) : Bool := (c = '\n') || (c = '\r')

def lowerS (s : Str) : Str := s.map Char.toLower

/-- Remove leading whitespace (one side of String.prototype.trim). -/
def dropWs (s : Str) : Str := s.dropWhile (fun c => isWsC c)

/-- Remove trailing whitespace: a whitespace character is kept only when
    something non-whitespace still follows it. -/
def trimEndS : Str → Str
  | [] => []
  | c :: rest =>
      if isWsC c then
        (match trimEndS rest with
         | [] => []
         | r => c :: r)
      else c :: trimEndS rest

/-- String.prototype.trim: strip whitespace from both ends. -/
def trimS (s : Str) : Str := trimEndS (dropWs s)

/-- Replace of the anchored pattern caret-the-ws+ (flag i applied after
    toLowerCase, so the literal is lower-case): strip a leading "the "
    together with all following whitespace. -/
def dropTheLead (s : Str) : Str :=
  match s with
  | 't' :: 'h' :: 'e' :: c :: rest =>
      if isWsC c then (c :: rest).dropWhile (fun d => isWsC d) else s
  | _ => s

/-- Replace of the anchored pattern comma-ws*-the-dollar: strip a trailing
    ", the" (after toLowerCase). -/
def dropTheTail (s : Str) : Str :=
  match s.reverse with
  | 'e' :: 'h' :: 't' :: rest =>
      match (rest.dropWhile (fun d => isWsC d)) with
      | ',' :: rest2 => rest2.reverse
      | _ => s
  | _ => s

/-- Split a string on whitespace runs, dropping empty pieces.  Models
    String.prototype.split on the regex ws+ as used by the source, whose
    callers immediately filter out short words, so the possible empty
    leading piece of the JS result is irrelevant (inputs are trimmed). -/
def wordsAux : Str → Str → List Str
  | [], acc => if acc.isEmpty then [] else [acc.reverse]
  | c :: rest, acc =>
      if isWsC c then
        (if acc.isEmpty then wordsAux rest [] else acc.reverse :: wordsAux rest [])
      else wordsAux rest (c :: acc)

def wordsOf (s : Str) : List Str := wordsAux s []

/-
  MovieScannerTMDbService.isTitleMatch (movie-scanner-tmdb.service.ts):

    const normalize = (t) => t.toLowerCase()
      .replace(/^the\s+/i, '').replace(/,\s*the$/i, '')
      .replace(/[^\w\s]/g, '').trim();
-/

/-- The scanner's title normalizer: lowercase, strip leading "the " and
    trailing ", the", delete every character that is neither a word
    character nor whitespace, trim. -/
def normTitle (t : Str) : Str :=
  trimS (((dropTheTail (dropTheLead (lowerS t))).filter (fun c => isWordC c || isWsC c)))

/-- Words of length greater than 1, as in isTitleMatch
    (split on ws+, filter w.length greater than 1). -/
def sigWords1 (s : Str) : List Str := (wordsOf s).filter (fun w => 1 < w.length)

/-- MovieScannerTMDbService.isTitleMatch: exact normalized equality; for
    short titles (at most 2 significant words on either side) require
    normalized equality; otherwise accept when one normalized title starts
    with the other. -/
def isTitleMatch (title1 title2 : Str) : Bool :=
  let n1 := normTitle title1
  let n2 := normTitle title2
  if n1 = n2 then true
  else
    let words1 := sigWords1 n1
    let words2 := sigWords1 n2
    if words1.length ≤ 2 ∨ words2.length ≤ 2 then decide (n1 = n2)
    else n2.isPrefixOf n1 || n1.isPrefixOf n2

/-
  TitleMatcherService (omdb-enhanced.service.ts): the 4-tier cascade
  exact / normalized / fuzzy / LLM.
-/

/-- Does pat occur as a contiguous substring of s
    (String.prototype.includes)? -/
def infixB (pat : Str) : Str → Bool
  | [] => pat.isEmpty
  | c :: rest => pat.isPrefixOf (c :: rest) || infixB pat rest

/-- Global replacement of a literal pattern
    (String.prototype.replace with a /g pattern of plain characters).
    The fuel argument makes the recursion structural; every step consumes
    at least one character and one unit of fuel, so starting the fuel at
    the length of the string the middle branch is never reached. -/
def replaceLitAux (pat rep : Str) : Nat → Str → Str
  | _, [] => []
  | 0, s => s
  | fuel + 1, c :: rest =>
      if pat ≠ [] ∧ pat.isPrefixOf (c :: rest) then
        rep ++ replaceLitAux pat rep fuel ((c :: rest).drop pat.length)
      else c :: replaceLitAux pat rep fuel rest

def replaceLit (pat rep s : Str) : Str := replaceLitAux pat rep s.length s

/-- Unicode combining diacritical marks U+0300 - U+036F, removed by the
    normalizer after NFD decomposition.  (NFD itself is not modelled: on
    strings without precomposed accented characters it is the identity.) -/
def isCombining (c : Char) : Bool := (0x300 ≤ c.toNat) && (c.toNat ≤ 0x36f)

/-- Collapse every whitespace run to a single space
    (replace of ws+ by a space, global).  The flag records whether the
    previous character was inside a whitespace run. -/
def collapseWsAux : Str → Bool → Str
  | [], _ => []
  | c :: rest, prevWs =>
      if isWsC c then
        (if prevWs then collapseWsAux rest true else ' ' :: collapseWsAux rest true)
      else c :: collapseWsAux rest false

def collapseWs (s : Str) : Str := collapseWsAux s false

/-- TitleMatcherService.normalize: lowercase, decode the three HTML
    entities, strip combining marks, strip leading "the " / trailing
    ", the", replace every non-word non-space character by a space,
    collapse whitespace, trim. -/
def normTM (title : Str) : Str :=
  let s1 := lowerS title
  let s2 := replaceLit ("&amp;".toList) ("&".toList) s1
  let s3 := replaceLit ("&apos;".toList) ("'".toList) s2
  let s4 := replaceLit ("&#39;".toList) ("'".toList) s3
  let s5 := s4.filter (fun c => !(isCombining c))
  let s6 := dropTheTail (dropTheLead s5)
  let s7 := s6.map (fun c => if isWordC c || isWsC c then c else ' ')
  trimS (collapseWs s7)

inductive MMethod
  | exact
  | normalized
  | fuzzy
  | llm
deriving DecidableEq

/-- MatchResult of the matcher (the free-text reasoning field is omitted:
    no claim mentions it). -/
structure MatchResult where
  isMatch : Bool
  confidence : ℚ
  method : MMethod
deriving DecidableEq

/-- Strategy 1: exact string equality. -/
def isExactMatch (t1 t2 : Str) : Bool := decide (t1 = t2)

/-- Strategy 2 (TitleMatcherService.isNormalizedMatch): normalized equality
    gives confidence 0.95; containment of one normalized title in the other
    gives 0.85 provided the shorter/longer length ratio is at least 0.7 and
    the two do not differ only by a trailing "s"/"es". -/
def isNormalizedMatch (t1 t2 : Str) : MatchResult :=
  let n1 := normTM t1
  let n2 := normTM t2
  if n1 = n2 then ⟨true, 95/100, MMethod.normalized⟩
  else if infixB n2 n1 || infixB n1 n2 then
    let shorter := if n1.length < n2.length then n1 else n2
    let longer := if n1.length < n2.length then n2 else n1
    let isSingularVsPlural :=
      decide (longer = shorter ++ ['s']) || decide (longer = shorter ++ ['e', 's'])
    if ((shorter.length : ℚ) / (longer.length : ℚ) ≥ 7/10) ∧ isSingularVsPlural = false then
      ⟨true, 85/100, MMethod.normalized⟩
    else ⟨false, 0, MMethod.normalized⟩
  else ⟨false, 0, MMethod.normalized⟩

/-- TitleMatcherService.extractSignificantWords: normalized words of length
    greater than 2. -/
def extractSigWords (t : Str) : List Str := (wordsOf (normTM t)).filter (fun w => 2 < w.length)

/-- Strategy 3 (TitleMatcherService.isFuzzyMatch): word-overlap ratio
    common/min penalized by min/max; a match when the product reaches 0.8. -/
def isFuzzyMatch (t1 t2 : Str) : MatchResult :=
  let words1 := extractSigWords t1
  let words2 := extractSigWords t2
  if words1.length = 0 ∨ words2.length = 0 then ⟨false, 0, MMethod.fuzzy⟩
  else
    let common := words1.filter (fun w => words2.contains w)
    let minW : ℚ := ((min words1.length words2.length : ℕ) : ℚ)
    let maxW : ℚ := ((max words1.length words2.length : ℕ) : ℚ)
    let conf := ((common.length : ℚ) / minW) * (minW / maxW)
    ⟨decide (conf ≥ 8/10), conf, MMethod.fuzzy⟩

/-- TitleMatcherService.areSameMovie: the ordered cascade.  The LLM
    collaborator (strategy 4) is a function parameter; note that when it is
    consulted its result is returned unchanged whether or not it clears the
    confidence threshold, exactly as in the source. -/
def areSameMovie (llm : Str → Str → MatchResult) (useLLM : Bool) (llmThreshold : ℚ)
    (t1 t2 : Str) : MatchResult :=
  if isExactMatch t1 t2 then ⟨true, 1, MMethod.exact⟩
  else
    let normalizedResult := isNormalizedMatch t1 t2
    if normalizedResult.isMatch then normalizedResult
    else
      let fuzzyResult := isFuzzyMatch t1 t2
      if fuzzyResult.isMatch && decide (fuzzyResult.confidence ≥ 8/10) then fuzzyResult
      else if useLLM then
        let llmResult := llm t1 t2
        if llmResult.isMatch && decide (llmResult.confidence ≥ llmThreshold) then llmResult
        else llmResult
      else ⟨false, fuzzyResult.confidence, MMethod.fuzzy⟩

/-
  MovieNameParser.cleanMovieName (utils) and the regex tables of
  config/constants.ts (MOVIE_NAME_PATTERNS).

  The word-boundary token patterns are translated through a small
  backtracking matcher over chunk sequences.  Candidate remainders of a
  chunk are ordered exactly as the JS engine prefers them (greedy, longest
  first; alternatives in source order), so the first overall success is the
  JS match.  A trailing word boundary is the endWordB chunk: every token of
  the tables ends in a word character, so the boundary holds exactly when
  the next character is not a word character (or the string ends).
-/

def isAlnumC (c : Char) : Bool :=
  (('a' ≤ c) && (c ≤ 'z')) || (('A' ≤ c) && (c ≤ 'Z')) || (('0' ≤ c) && (c ≤ '9'))

def isLetterC (c : Char) : Bool := (('a' ≤ c) && (c ≤ 'z')) || (('A' ≤ c) && (c ≤ 'Z'))

def headIsWord : Str → Bool
  | [] => false
  | c :: _ => isWordC c

/-- Strip a literal, comparing case-insensitively (regex /i flag). -/
def stripLitCI : Str → Str → Option Str
  | [], s => some s
  | _ :: _, [] => none
  | p :: ps, c :: cs => if c.toLower = p.toLower then stripLitCI ps cs else none

/-- One piece of a regex token: literal, character classes with the
    quantifiers used by the source tables, and a trailing word boundary. -/
inductive Chunk
  | lit (cs : Str)
  | cls1 (p : Char → Bool)
  | clsPlus (p : Char → Bool)
  | digitsB (lo hi : Nat)
  | digitsPlus
  | ws0
  | ws1
  | optCls (p : Char → Bool)
  | optLit (cs : Str)
  | endWordB
  | endNonWordB

/-- Remainders of s after dropping m, m-1, ..., lo characters (the greedy
    preference order of a quantifier whose run has length m). -/
def dropsDesc (s : Str) (m lo : Nat) : List Str :=
  (List.range (m + 1 - lo)).map (fun k => s.drop (m - k))

/-- Candidate remainders after one chunk, in JS preference order. -/
def chunkOpts : Chunk → Str → List Str
  | Chunk.lit cs, s => (stripLitCI cs s).toList
  | Chunk.cls1 p, s =>
      match s with
      | c :: rest => if p c then [rest] else []
      | [] => []
  | Chunk.clsPlus p, s => dropsDesc s (s.takeWhile p).length 1
  | Chunk.digitsB lo hi, s => dropsDesc s (min hi (s.takeWhile (fun c => isDigitC c)).length) lo
  | Chunk.digitsPlus, s => dropsDesc s (s.takeWhile (fun c => isDigitC c)).length 1
  | Chunk.ws0, s => dropsDesc s (s.takeWhile (fun c => isWsC c)).length 0
  | Chunk.ws1, s => dropsDesc s (s.takeWhile (fun c => isWsC c)).length 1
  | Chunk.optCls p, s =>
      match s with
      | c :: rest => if p c then [rest, c :: rest] else [c :: rest]
      | [] => [[]]
  | Chunk.optLit cs, s => ((stripLitCI cs s).toList) ++ [s]
  | Chunk.endWordB, s => if headIsWord s then [] else [s]
  | Chunk.endNonWordB, s => if headIsWord s then [s] else []

/-- Backtracking matcher: first remainder (in preference order) from which
    the remaining chunks succeed — i.e. the JS match at this position. -/
def matchChunksBT : List Chunk → Str → Option Str
  | [], s => some s
  | k :: ks, s => (chunkOpts k s).findSome? (fun r => matchChunksBT ks r)

/-- First alternative of the alternation that matches at this position
    (JS alternation preference: source order). -/
def tryAlts (alts : List (List Chunk)) (s : Str) : Option Str :=
  alts.findSome? (fun a => matchChunksBT a s)

/-- Test scanner for a word-boundary-delimited alternation: does it match
    at any position?  prevWord carries the word-ness of the previous
    character (the leading boundary; every alternative starts with a word
    character). -/
def altsTestAux (alts : List (List Chunk)) : Bool → Str → Bool
  | _, [] => false
  | prevWord, c :: rest =>
      (!prevWord && (tryAlts alts (c :: rest)).isSome) || altsTestAux alts (isWordC c) rest

def altsTest (alts : List (List Chunk)) (s : Str) : Bool := altsTestAux alts false s

/-- Word-ness of the last character of l (or dflt when l is empty). -/
def lastWordOf (l : Str) (dflt : Bool) : Bool :=
  match l.reverse with
  | x :: _ => isWordC x
  | [] => dflt

/-- Replace scanner: global replace of the alternation by one space.
    After a match the scan resumes at the remainder (non-overlapping
    global matches); the word boundary there is judged against the matched
    region's last character of the original string.
    Fuel makes the recursion structural; one unit per consumed character
    suffices since every match consumes at least one character. -/
def replAltsAux (alts : List (List Chunk)) : Nat → Bool → Str → Str
  | _, _, [] => []
  | 0, _, s => s
  | fuel + 1, prevWord, c :: rest =>
      if !prevWord then
        match tryAlts alts (c :: rest) with
        | some r =>
            ' ' :: replAltsAux alts fuel
              (lastWordOf ((c :: rest).take ((c :: rest).length - r.length)) prevWord) r
        | none => c :: replAltsAux alts fuel (isWordC c) rest
      else c :: replAltsAux alts fuel (isWordC c) rest

def replaceAlts (alts : List (List Chunk)) (s : Str) : Str := replAltsAux alts s.length false s

/-- A plain token of a table: its literal followed by a word boundary. -/
def litTok (s : String) : List Chunk := [Chunk.lit s.toList, Chunk.endWordB]

/-- QUALITY: 480p|720p|1080p|2160p|4k|hd|uhd|bluray|brrip|bdrip|dvdrip|webrip|web-dl|web|hdtv|kp (gi, word-delimited). -/
def qualityAlts : List (List Chunk) :=
  [litTok "480p", litTok "720p", litTok "1080p", litTok "2160p", litTok "4k", litTok "hd",
   litTok "uhd", litTok "bluray", litTok "brrip", litTok "bdrip", litTok "dvdrip",
   litTok "webrip", litTok "web-dl", litTok "web", litTok "hdtv", litTok "kp"]

/-- CODEC: x264|x265|h264|h265|hevc|xvid|divx|avc (gi, word-delimited). -/
def codecAlts : List (List Chunk) :=
  [litTok "x264", litTok "x265", litTok "h264", litTok "h265", litTok "hevc", litTok "xvid",
   litTok "divx", litTok "avc"]

/-- AUDIO: aac|ac3|dts|truehd|atmos|dd5.1|dd7.1 (gi, word-delimited; the dots are escaped literals). -/
def audioAlts : List (List Chunk) :=
  [litTok "aac", litTok "ac3", litTok "dts", litTok "truehd", litTok "atmos",
   litTok "dd5.1", litTok "dd7.1"]

/-- LANGUAGE: rus|ukr|eng|english|russian|ukrainian|multi|dual (gi, word-delimited). -/
def languageAlts : List (List Chunk) :=
  [litTok "rus", litTok "ukr", litTok "eng", litTok "english", litTok "russian",
   litTok "ukrainian", litTok "multi", litTok "dual"]

/-- FOLDER_QUALITY: digits+ ws* fps | 60fps|30fps|24fps | ai ws* upscale | remaster(ed)? (gi, word-delimited). -/
def folderQualityAlts : List (List Chunk) :=
  [[Chunk.digitsPlus, Chunk.ws0, Chunk.lit ("fps".toList), Chunk.endWordB],
   litTok "60fps", litTok "30fps", litTok "24fps",
   [Chunk.lit ("ai".toList), Chunk.ws0, Chunk.lit ("upscale".toList), Chunk.endWordB],
   [Chunk.lit ("remaster".toList), Chunk.optLit ("ed".toList), Chunk.endWordB]]

/-- AUDIO_FILE: atmos ws* mix|music|soundtrack|ost|audio ws* track (i, word-delimited). -/
def audioFileAlts : List (List Chunk) :=
  [[Chunk.lit ("atmos".toList), Chunk.ws0, Chunk.lit ("mix".toList), Chunk.endWordB],
   litTok "music", litTok "soundtrack", litTok "ost",
   [Chunk.lit ("audio".toList), Chunk.ws0, Chunk.lit ("track".toList), Chunk.endWordB]]

def dotOrWsC (c : Char) : Bool := (c = '.') || isWsC c

/-- TV_EPISODE: s digits(1-2) [.ws]? e digits(1-2) | season ws* digits+ | episode ws* digits+ (i, word-delimited). -/
def tvEpisodeAlts : List (List Chunk) :=
  [[Chunk.lit ("s".toList), Chunk.digitsB 1 2, Chunk.optCls dotOrWsC,
    Chunk.lit ("e".toList), Chunk.digitsB 1 2, Chunk.endWordB],
   [Chunk.lit ("season".toList), Chunk.ws0, Chunk.digitsPlus, Chunk.endWordB],
   [Chunk.lit ("episode".toList), Chunk.ws0, Chunk.digitsPlus, Chunk.endWordB]]

/-- Separator class of the EPISODE pattern and of the numeric-prefix strip:
    dot, whitespace, dash. -/
def epSepC (c : Char) : Bool := (c = '.') || isWsC c || (c = '-')

/-- EPISODE (anchored): digits(1-2) then one or more of dot/ws/dash. -/
def episodeTest (s : Str) : Bool :=
  (matchChunksBT [Chunk.digitsB 1 2, Chunk.clsPlus epSepC] s).isSome

/-- The numeric-prefix strip (anchored replace by the empty string):
    digits(1-2) then one or more of dash/dot/ws removed from the front. -/
def stripLeadNum (s : Str) : Str :=
  match matchChunksBT [Chunk.digitsB 1 2, Chunk.clsPlus epSepC] s with
  | some r => r
  | none => s

/-- A parenthesized 19xx/20xx year at the head of s. -/
def yearParenAt (s : Str) : Bool :=
  match s with
  | c0 :: a :: b :: c :: d :: c5 :: _ =>
      (c0 = '(') && ((((a = '1') && (b = '9')) || ((a = '2') && (b = '0')))
        && isDigitC c && isDigitC d) && (c5 = ')')
  | _ => false

/-- hasYear: the pattern paren-(19|20)dd-paren occurs somewhere. -/
def hasParenYear : Str → Bool
  | [] => false
  | c :: rest => yearParenAt (c :: rest) || hasParenYear rest

/-- A parenthesized year occurs, with no line terminator before it (the
    dot-star of the collection pattern cannot cross line terminators). -/
def parenYearNoNl : Str → Bool
  | [] => false
  | c :: rest => yearParenAt (c :: rest) || (!isNlC c && parenYearNoNl rest)

def collItemSepC (c : Char) : Bool := (c = '-') || (c = '.')

/-- isMovieCollectionItem (anchored): digits(1-2), dash or dot, then a
    parenthesized year later on the same line. -/
def collectionTest (s : Str) : Bool :=
  match s with
  | d1 :: c2 :: rest =>
      isDigitC d1 &&
        ((isDigitC c2 &&
          (match rest with
           | c3 :: rest2 => collItemSepC c3 && parenYearNoNl rest2
           | [] => false)) ||
         (collItemSepC c2 && parenYearNoNl rest))
  | _ => false

def digitVal (c : Char) : Nat := c.toNat - 48

/-- A 19xx/20xx year at the head of s with a word boundary after it;
    returns its numeric value. -/
def yearAtB : Str → Option Nat
  | a :: b :: c :: d :: rest =>
      if ((((a = '1') && (b = '9')) || ((a = '2') && (b = '0'))) && isDigitC c && isDigitC d)
          && !headIsWord rest
      then some (digitVal a * 1000 + digitVal b * 100 + digitVal c * 10 + digitVal d)
      else none
  | _ => none

/-- YEAR: first word-delimited 19xx/20xx token, as a number (String.match
    followed by parseInt). -/
def yearScanAux : Bool → Str → Option Nat
  | _, [] => none
  | prevWord, c :: rest =>
      match (if !prevWord then yearAtB (c :: rest) else none) with
      | some y => some y
      | none => yearScanAux (isWordC c) rest

def yearScan (s : Str) : Option Nat := yearScanAux false s

/-- Decimal rendering of a natural number (Number.prototype.toString).
    Fuel keeps the recursion structural; n+1 units always suffice. -/
def natDecAux : Nat → Nat → Str
  | 0, _ => []
  | fuel + 1, n =>
      if n < 10 then [Nat.digitChar n] else natDecAux fuel (n / 10) ++ [Nat.digitChar (n % 10)]

def natDec (n : Nat) : Str := natDecAux (n + 1) n

/-- String.prototype.indexOf for a plain pattern. -/
def idxOfSubAux (pat : Str) : Str → Nat → Option Nat
  | [], i => if pat.isEmpty then some i else none
  | c :: rest, i => if pat.isPrefixOf (c :: rest) then some i else idxOfSubAux pat rest (i + 1)

def indexOfSub (pat s : Str) : Option Nat := idxOfSubAux pat s 0

/-- The release-group replace: dash followed by one or more letters/digits
    up to a word boundary, replaced by a space, global, case-insensitive.
    The run is maximal and must be followed by a non-word character or the
    end (a shorter run would be followed by a letter/digit and fail the
    boundary). -/
def dashGroupAux : Nat → Str → Str
  | _, [] => []
  | 0, s => s
  | fuel + 1, c :: rest =>
      if c = '-' then
        (let run := rest.takeWhile (fun d => isAlnumC d)
         if !run.isEmpty && !headIsWord (rest.drop run.length) then
           ' ' :: dashGroupAux fuel (rest.drop run.length)
         else c :: dashGroupAux fuel rest)
      else c :: dashGroupAux fuel rest

def dashGroupRepl (s : Str) : Str := dashGroupAux s.length s

/-- Tail check of the "i Ton" rule: one-or-more whitespace, then at least
    two letters running to the end of the string. -/
def iTonTailWs (rest : Str) : Bool :=
  let r1 := rest.dropWhile (fun c => isWsC c)
  decide (r1.length < rest.length) && decide (2 ≤ r1.length) && r1.all (fun c => isLetterC c)

/-- Tail check of the "i.Ton" rule: a dot, optional whitespace, then at
    least two letters running to the end of the string. -/
def iTonTailDot (rest : Str) : Bool :=
  match rest with
  | '.' :: r =>
      (let r1 := r.dropWhile (fun c => isWsC c)
       decide (2 ≤ r1.length) && r1.all (fun c => isLetterC c))
  | _ => false

/-- Leftmost position of a word-boundary single letter whose tail check
    succeeds (the two end-anchored release-group decorations). -/
def iTonScan (tailChk : Str → Bool) : Bool → Nat → Str → Option Nat
  | _, _, [] => none
  | prevWord, i, c :: rest =>
      if !prevWord && isLetterC c && tailChk rest then some i
      else iTonScan tailChk (isWordC c) (i + 1) rest

/-- Replace of the pattern boundary-letter-ws+-letter-letters+-end by a
    space (first match only; the match runs to the end of the string). -/
def replITonWs (s : Str) : Str :=
  match iTonScan iTonTailWs false 0 s with
  | some i => s.take i ++ [' ']
  | none => s

/-- Replace of the pattern boundary-letter-dot-ws*-letter-letters+-end by a
    space (first match only). -/
def replITonDot (s : Str) : Str :=
  match iTonScan iTonTailDot false 0 s with
  | some i => s.take i ++ [' ']
  | none => s

/-- Index of the first dot of a list, if any. -/
def fstDotIdx : Str → Option Nat
  | [] => none
  | c :: rest => if c = '.' then some 0 else (fstDotIdx rest).map (fun k => k + 1)

/-- Index of the last dot (String.prototype.lastIndexOf). -/
def lastDotIdx (s : Str) : Option Nat :=
  match fstDotIdx s.reverse with
  | some k => some (s.length - 1 - k)
  | none => none

/-- The extension strip of cleanMovieName: cut at the last dot when its
    index is positive. -/
def extStrip (s : Str) : Str :=
  match lastDotIdx s with
  | some i => if 0 < i then s.take i else s
  | none => s

def isBracketC (c : Char) : Bool :=
  (c = '[') || (c = ']') || (c = '(') || (c = ')') || (c = '\x7b') || (c = '\x7d')

/-- Replace every character of a class by a space (the BRACKETS and
    DOTS_UNDERSCORES replaces). -/
def replClassSpace (p : Char → Bool) (s : Str) : Str := s.map (fun c => if p c then ' ' else c)

structure CleanResult where
  cleanName : Str
  year : Option Nat
  isTVEpisode : Bool
  isAudioFile : Bool
deriving DecidableEq

/-- MovieNameParser.cleanMovieName, stage by stage in source order:
    extension strip; audio-file test; parenthesized-year test; collection
    test; TV-episode flag; conditional numeric-prefix strip; year
    extraction; release-group replaces; the five token-table replaces;
    truncation at the first occurrence of the year's digits (only at a
    positive index); bracket and dot/underscore replaces; whitespace
    collapse; trim. -/
def cleanMovieName (fileName : Str) : CleanResult :=
  let name0 := extStrip fileName
  let isAudio := altsTest audioFileAlts name0
  let hasYear := hasParenYear name0
  let isColl := collectionTest name0
  let isTV := !hasYear && !isColl && (episodeTest name0 || altsTest tvEpisodeAlts name0)
  let name1 := if isColl || isTV then stripLeadNum name0 else name0
  let year := yearScan name1
  let name2 := dashGroupRepl name1
  let name3 := replITonWs name2
  let name4 := replITonDot name3
  let name5 := replaceAlts qualityAlts name4
  let name6 := replaceAlts codecAlts name5
  let name7 := replaceAlts audioAlts name6
  let name8 := replaceAlts languageAlts name7
  let name9 := replaceAlts folderQualityAlts name8
  let name10 :=
    match year with
    | some y =>
        (match indexOfSub (natDec y) name9 with
         | some i => if 0 < i then name9.take i else name9
         | none => name9)
    | none => name9
  let name11 := replClassSpace isBracketC name10
  let name12 := replClassSpace (fun c => (c = '.') || (c = '_')) name11
  let name13 := collapseWs name12
  { cleanName := trimS name13, year := year, isTVEpisode := isTV, isAudioFile := isAudio }

/-- Whitespace-collapsed strings: every whitespace character is a single
    space never followed by further whitespace (leading or trailing spaces
    allowed).  The flag records whether the previous character was
    whitespace. -/
def colOkAux : Bool → Str → Bool
  | _, [] => true
  | prevWs, c :: rest =>
      if isWsC c then (c = ' ') && !prevWs && colOkAux true rest
      else colOkAux false rest

/-- Whitespace-canonical strings: collapsed, and neither leading nor
    trailing whitespace.  Starting the scan with the flag set rejects a
    leading space; the end-of-string check rejects a trailing one. -/
def canonAux : Bool → Str → Bool
  | prevWs, [] => !prevWs
  | prevWs, c :: rest =>
      if isWsC c then (c = ' ') && !prevWs && canonAux true rest
      else canonAux false rest

def canonWs (s : Str) : Bool :=
  match s with
  | [] => true
  | _ => canonAux true s

def headWsB : Str → Bool
  | [] => false
  | c :: _ => isWsC c

/-
  MovieNameParser.buildFileName and the already-processed detector of
  FileScanner.parseFile (file-scanner.ts).
-/

/-- Number.prototype.toFixed(1) for a non-negative rating carrying one
    decimal digit; the rating is modelled by its value in tenths (IMDB
    ratings are rendered with exactly one decimal). -/
def toFixed1 (tenths : Nat) : Str :=
  natDec (tenths / 10) ++ '.' :: [Nat.digitChar (tenths % 10)]

/-- MovieNameParser.buildFileName: the template
    title space paren year paren space paren IMDB space rating paren extension. -/
def buildFileName (title : Str) (year : Nat) (tenths : Nat) (extension : Str) : Str :=
  title ++ ' ' :: '(' :: (natDec year ++ ')' :: ' ' :: '(' :: 'I' :: 'M' :: 'D' :: 'B' :: ' ' ::
    (toFixed1 tenths ++ ')' :: extension))

def digitOrDotC (c : Char) : Bool := isDigitC c || (c = '.')

/-- The middle of the reversed already-processed name, after the rating
    run: the whitespace after IMDB, "IMDB" and its opening parenthesis
    (reversed), the whitespace separator, the fixed-width year group, its
    opening parenthesis, the separator after the title, and the reversed
    title itself (non-empty, matched by dot-plus so free of line
    terminators). -/
def apAfterRat (s : Str) : Bool :=
  match s with
  | ws1 :: cB :: cD :: cM :: cI :: cP :: ws2 :: cQ :: d4 :: d3 :: d2 :: d1 :: cR :: ws3 :: rest =>
      isWsC ws1 && (cB = 'B') && (cD = 'D') && (cM = 'M') && (cI = 'I') && (cP = '(') &&
      isWsC ws2 && (cQ = ')') && isDigitC d4 && isDigitC d3 && isDigitC d2 && isDigitC d1 &&
      (cR = '(') && isWsC ws3 && decide (rest ≠ []) && rest.all (fun c => !isNlC c)
  | _ => false

/-- The already-processed pattern on the reversed string: the extension's
    word-run, its dot, the closing parenthesis, the rating run of digits
    and dots, then apAfterRat. -/
def apParseRev (r : Str) : Bool :=
  let w := r.takeWhile (fun c => isWordC c)
  let r1 := r.drop w.length
  decide (w ≠ []) &&
  (match r1 with
   | cDot :: cQ :: r2 =>
       (cDot = '.') && (cQ = ')') &&
       (let rat := r2.takeWhile (fun c => digitOrDotC c)
        decide (rat ≠ []) && apAfterRat (r2.drop rat.length))
   | _ => false)

/-- The already-processed detector of FileScanner.parseFile: the anchored
    pattern caret (.+) ws paren(4 digits)paren ws paren IMDB ws
    [digits dots]+ paren (dot word-plus) dollar.  Both anchors force the
    decomposition (the extension is the word-run after the last dot; the
    rating run and the fixed-width year group sit at forced positions), so
    the greedy backtracking match is computed deterministically from the
    right end of the string. -/
def alreadyProcessedTest (s : Str) : Bool := apParseRev s.reverse

inductive ItemType
  | SingleMovie
  | TVShowSeriesEpisode
  | SubtitleFile
  | Other
deriving DecidableEq

structure ParsedItem where
  name : Str
  itemType : ItemType
deriving DecidableEq

def upperS (s : Str) : Str := s.map Char.toUpper

/-- The rip-structure marker names skipped by parseFile before anything
    else. -/
def ripMarkerNames : List Str :=
  [("BDMV").toList, ("VIDEO_TS").toList, ("CERTIFICATE").toList]

/-- The sidecar extensions parseFile keeps under their original names. -/
def subtitleExtensions : List Str :=
  [(".srt").toList, (".sub").toList, (".idx").toList, (".ass").toList, (".ssa").toList,
   (".vtt").toList, (".ac3").toList, (".dts").toList, (".mka").toList]

/-- parseFile's extension extraction, the regex dot [caret dot]+ dollar
    lower-cased: the trailing run of non-dot characters together with the
    dot before it, evaluated from the right end where the dollar anchor
    forces the match; empty when the name has no dot or ends with one. -/
def extOfFile (fileName : Str) : Str :=
  let r := fileName.reverse
  let run := r.takeWhile (fun c => !(c = '.'))
  if run.isEmpty then []
  else
    match r.drop run.length with
    | '.' :: _ => lowerS ('.' :: run.reverse)
    | _ => []

/-- String.prototype.padStart(2, zero) on a 1-2 character capture. -/
def pad2 (ds : Str) : Str := if ds.length = 1 then '0' :: ds else ds

/-- One-position match of the episode pattern S(dd)[dot ws]*E(dd)
    (flag i), returning the two digit captures.  The greedy 1-2-digit
    season take is forced: giving a digit back leaves a digit where the
    class or the E is required, and the class run is likewise forced
    because E is not in the class. -/
def sEAt (s : Str) : Option (Str × Str) :=
  match s with
  | cS :: r =>
      if cS.toLower = 's' then
        let ds := (r.takeWhile (fun d => isDigitC d)).take 2
        if ds.isEmpty then none
        else
          let r2 := r.drop ds.length
          let sep := r2.takeWhile (fun c => (c = '.') || isWsC c)
          match r2.drop sep.length with
          | cE :: r3 =>
              if cE.toLower = 'e' then
                let es := (r3.takeWhile (fun d => isDigitC d)).take 2
                if es.isEmpty then none else some (ds, es)
              else none
          | [] => none
      else none
  | [] => none

/-- Leftmost match of the SxxEyy episode pattern. -/
def sEScan : Str → Option (Str × Str)
  | [] => none
  | c :: r =>
      match sEAt (c :: r) with
      | some pr => some pr
      | none => sEScan r

/-- One-position match of (dd) ws* ser-cyrillic (flag i): the greedy
    digit take and the whitespace run are forced as in sEAt. -/
def ruSerAt (s : Str) : Option Str :=
  let ds := (s.takeWhile (fun d => isDigitC d)).take 2
  if ds.isEmpty then none
  else
    let r2 := s.drop ds.length
    let wsr := r2.takeWhile (fun c => isWsC c)
    match stripLitCI (("сер").toList) (r2.drop wsr.length) with
    | some _ => some ds
    | none => none

def ruSerScan : Str → Option Str
  | [] => none
  | c :: r =>
      match ruSerAt (c :: r) with
      | some ds => some ds
      | none => ruSerScan r

/-- One-position match of seriya-cyrillic ws* (dd) (flag i). -/
def seriyaAt (s : Str) : Option Str :=
  match stripLitCI (("серия").toList) s with
  | some r =>
      let wsr := r.takeWhile (fun c => isWsC c)
      let ds := ((r.drop wsr.length).takeWhile (fun d => isDigitC d)).take 2
      if ds.isEmpty then none else some ds
  | none => none

def seriyaScan : Str → Option Str
  | [] => none
  | c :: r =>
      match seriyaAt (c :: r) with
      | some ds => some ds
      | none => seriyaScan r

/-- The anchored simple episode pattern caret (dd) [dot ws dash]: the
    greedy digit take is forced as in sEAt. -/
def epSimpleAt (s : Str) : Option Str :=
  let ds := (s.takeWhile (fun d => isDigitC d)).take 2
  if ds.isEmpty then none
  else
    match s.drop ds.length with
    | c :: _ => if (c = '.') || isWsC c || (c = '-') then some ds else none
    | [] => none

/-- What parseFile does with one file: skip it without a parsed item
    (the rip markers), assign a parsed item and return, or fall through
    into the TMDB-lookup tail of the function. -/
inductive ParseOutcome
  | skipped
  | item (it : ParsedItem)
  | lookupTail
deriving DecidableEq

/-- The already-processed branch of FileScanner.parseFile: when the
    detector matches, the parsed item keeps the file name verbatim and is
    classified SingleMovie (the metadata enrichment performed there is a
    collaborator lookup and does not touch the name). -/
def apBranch (fileName : Str) : ParseOutcome :=
  if alreadyProcessedTest fileName then ParseOutcome.item ⟨fileName, ItemType.SingleMovie⟩
  else ParseOutcome.lookupTail

/-- The head of FileScanner.parseFile up to and including the
    already-processed branch: the rip-marker skip, the subtitle/audio
    sidecar gate, the series-context episode rename (season defaulting
    to 01 for the Russian and simple patterns), and then the
    already-processed detector. -/
def parseFileHead (fileName : Str) (seriesName : Option Str) : ParseOutcome :=
  let extension := extOfFile fileName
  if ripMarkerNames.contains (upperS fileName) then ParseOutcome.skipped
  else if subtitleExtensions.contains extension then
    ParseOutcome.item ⟨fileName, ItemType.SubtitleFile⟩
  else
    match seriesName with
    | some sn =>
        (match sEScan fileName with
         | some (ds, es) =>
             ParseOutcome.item ⟨sn ++ ' ' :: 'S' :: (pad2 ds ++ 'E' :: (pad2 es ++ extension)),
               ItemType.TVShowSeriesEpisode⟩
         | none =>
             match (ruSerScan fileName).orElse (fun _ => seriyaScan fileName) with
             | some ds =>
                 ParseOutcome.item ⟨sn ++ ' ' :: 'S' :: '0' :: '1' :: 'E' :: (pad2 ds ++ extension),
                   ItemType.TVShowSeriesEpisode⟩
             | none =>
                 match epSimpleAt fileName with
                 | some ds =>
                     ParseOutcome.item
                       ⟨sn ++ ' ' :: 'S' :: '0' :: '1' :: 'E' :: (pad2 ds ++ extension),
                         ItemType.TVShowSeriesEpisode⟩
                 | none => apBranch fileName)
    | none => apBranch fileName

/-
  TVSeriesNameParser.cleanFolderName (tv-series-name-parser.util.ts).
  The two early-return branches (the Russian " - S01" suffix and the
  already-renamed "Name (Year) (IMDB X.X)" shape) are lazy anchored
  matches whose decompositions are forced by the end anchor, so they are
  parsed deterministically from the right end of the string.
-/

def digitsVal (ds : Str) : Nat := ds.foldl (fun acc c => acc * 10 + digitVal c) 0

/-- The lazy leading capture (.+?) before a forced suffix, given the
    reversed text r4 standing before the suffix: the whitespace run
    adjacent to the suffix belongs to the following ws-star, except that
    the capture must keep at least one (non-line-terminator) character. -/
def lazyCapture (r4 : Str) : Option Str :=
  let r5 := r4.dropWhile (fun c => isWsC c)
  if r5.isEmpty then
    (match r4.reverse with
     | c0 :: _ => if !isNlC c0 then some [c0] else none
     | [] => none)
  else if (r5.reverse).all (fun c => !isNlC c) then some r5.reverse else none

/-- The Russian-season branch: caret (.+?) ws* dash ws* S (1-2 digits)
    dollar, flag i; returns the trimmed capture and the season number. -/
def ruSeasonParse (s : Str) : Option (Str × Nat) :=
  let r := s.reverse
  let ds := r.takeWhile (fun c => isDigitC c)
  if ds.length = 0 ∨ 3 ≤ ds.length then none
  else
    match r.drop ds.length with
    | cS :: r2 =>
        if cS.toLower = 's' then
          (match r2.dropWhile (fun c => isWsC c) with
           | '-' :: r4 =>
               (lazyCapture r4).map (fun cap => (trimS cap, digitsVal ds.reverse))
           | _ => none)
        else none
    | [] => none

/-- The renamed-folder branch: caret (.+?) ws* paren (4 digits) paren ws*
    paren IMDB ws* [digits dots]+ paren dollar, flag i; returns the
    trimmed capture and the year. -/
def imdbFolderParse (s : Str) : Option (Str × Nat) :=
  match s.reverse with
  | cQ :: r1 =>
      if cQ = ')' then
        (let rat := r1.takeWhile (fun c => digitOrDotC c)
         if rat.isEmpty then none
         else
           match (r1.drop rat.length).dropWhile (fun c => isWsC c) with
           | cB :: cD :: cM :: cI :: cP :: r3 =>
               if (cB.toLower = 'b') && (cD.toLower = 'd') && (cM.toLower = 'm')
                   && (cI.toLower = 'i') && (cP = '(') then
                 (match r3.dropWhile (fun c => isWsC c) with
                  | cQ2 :: e4 :: e3 :: e2 :: e1 :: cP2 :: r5 =>
                      if (cQ2 = ')') && isDigitC e4 && isDigitC e3 && isDigitC e2
                          && isDigitC e1 && (cP2 = '(') then
                        (lazyCapture r5).map
                          (fun cap => (trimS cap, digitsVal [e1, e2, e3, e4]))
                      else none
                  | _ => none)
               else none
           | _ => none)
      else none
  | [] => none

def qualityTags : List String :=
  ["2160p", "4K", "UHD", "1080p", "1080i", "720p", "480p", "HDR", "HDR10", "HDR10+", "DV",
   "Dolby Vision", "SDR"]

def sourceCodecTags : List String :=
  ["WEB-DL", "WEBDL", "WEBRip", "WEB", "BluRay", "BDRip", "BRRip", "Blu-ray", "DVDRip",
   "DVDScr", "HDTV", "PDTV", "HEVC", "x265", "H.265", "H265", "x264", "H.264", "H264", "AVC",
   "AV1", "VP9", "REMUX", "Hybrid"]

def audioTags : List String :=
  ["DTS", "DTS-HD", "DTS-HD.MA", "DTS-X", "TrueHD", "Atmos", "AC3", "AAC", "FLAC", "EAC3",
   "DD5.1", "DDP5.1", "LPCM", "PCM", "7.1", "5.1", "2.0"]

def releaseGroups : List String :=
  ["RARBG", "YIFY", "YTS", "FGT", "NTb", "LOL", "DEMAND", "FLUX", "ExKinoRay", "KinoRay",
   "Jaskier", "NewStudio", "LostFilm", "Kerob", "HDRezka", "Hamster", "NewComers", "SPARKS",
   "GECKOS", "TERMINAL", "EPSILON"]

/-- Trailing word boundary of a single escaped tag: judged against the
    word-ness of the tag's last character. -/
def tailBoundary (cs : Str) : Chunk :=
  match cs.reverse with
  | x :: _ => if isWordC x then Chunk.endWordB else Chunk.endNonWordB
  | [] => Chunk.endWordB

/-- One escaped tag wrapped in word boundaries, matched case-insensitively. -/
def tokCI (s : String) : List Chunk := [Chunk.lit s.toList, tailBoundary s.toList]

/-- Replace scanner without word boundaries (the bracketed release-group
    replaces use plain patterns). -/
def replAltsNBAux (alts : List (List Chunk)) : Nat → Str → Str
  | _, [] => []
  | 0, s => s
  | fuel + 1, c :: rest =>
      match tryAlts alts (c :: rest) with
      | some r => ' ' :: replAltsNBAux alts fuel r
      | none => c :: replAltsNBAux alts fuel rest

def replAltsNB (alts : List (List Chunk)) (s : Str) : Str := replAltsNBAux alts s.length s

def dotWsC (c : Char) : Bool := (c = '.') || isWsC c

/-- The folder-year scan: class [dot ws], then 19xx/20xx, then class
    [dot ws] or the end; first occurrence, value of the digits. -/
def tvYearScan : Str → Option Nat
  | [] => none
  | c :: rest =>
      (if dotWsC c then
        (match rest with
         | a :: b :: c2 :: d :: r2 =>
             if ((((a = '1') && (b = '9')) || ((a = '2') && (b = '0'))) && isDigitC c2
                 && isDigitC d)
                 && (r2.isEmpty || dotWsC (r2.headD ' ')) then
               some (digitVal a * 1000 + digitVal b * 100 + digitVal c2 * 10 + digitVal d)
             else tvYearScan rest
         | _ => tvYearScan rest)
      else tvYearScan rest)

/-- The season-marker search: S (1-2 digits) followed by a dot, the end,
    or whitespace; no word boundary, case-insensitive; first occurrence. -/
def seasonScan : Str → Option Nat
  | [] => none
  | c :: rest =>
      if c.toLower = 's' then
        (let ds := (rest.takeWhile (fun d => isDigitC d)).take 2
         if ds.isEmpty then seasonScan rest
         else
           match rest.drop ds.length with
           | [] => some (digitsVal ds)
           | n :: _ =>
               if dotWsC n then some (digitsVal ds)
               else
                 match ds with
                 | [d1, _] =>
                     -- backtrack to one digit: when two digits were taken
                     -- the character after the first digit is the second
                     -- digit, never a separator, so only the case where
                     -- the run itself ends the string remains
                     (match rest.drop 1 with
                      | m :: _ => if dotWsC m then some (digitsVal [d1]) else seasonScan rest
                      | [] => some (digitsVal [d1]))
                 | _ => seasonScan rest)
      else seasonScan rest

/-- The season-marker cut (replace of: optional dot, S, 1-2 digits, then
    everything to the end of the string): index of the leftmost position
    where it matches, cutting there.  The dot-star-dollar piece requires
    every later character to be a non-line-terminator. -/
def seasonCutAt : Str → Bool
  | [] => false
  | c :: rest =>
      (if c = '.' then
        (match rest with
         | cS :: r2 =>
             cS.toLower = 's' &&
               (let ds := (r2.takeWhile (fun d => isDigitC d)).take 2
                !ds.isEmpty && (r2.drop ds.length).all (fun e => !isNlC e))
         | [] => false)
      else false)
      ||
      (c.toLower = 's' &&
        (let ds := (rest.takeWhile (fun d => isDigitC d)).take 2
         !ds.isEmpty && (rest.drop ds.length).all (fun e => !isNlC e)))

def seasonCutIdx : Str → Option Nat
  | [] => none
  | c :: rest =>
      if seasonCutAt (c :: rest) then some 0
      else (seasonCutIdx rest).map (fun k => k + 1)

def seasonCut (s : Str) : Str :=
  match seasonCutIdx s with
  | some i => s.take i
  | none => s

def isUpperC (c : Char) : Bool := ('A' ≤ c) && (c ≤ 'Z')

/-- The space-dash release-group cut: ws, dash, ws*, an upper-case letter,
    letters and digits, ws* to the end (case-sensitive); leftmost match,
    removed. -/
def dashGroupEndAt : Str → Bool
  | c :: '-' :: rest =>
      isWsC c &&
        (match rest.dropWhile (fun d => isWsC d) with
         | u :: r2 => isUpperC u && (r2.dropWhile (fun d => isAlnumC d)).all (fun e => isWsC e)
         | [] => false)
  | _ => false

def dashGroupEndIdx : Str → Option Nat
  | [] => none
  | c :: rest =>
      if dashGroupEndAt (c :: rest) then some 0
      else (dashGroupEndIdx rest).map (fun k => k + 1)

def dashGroupEndCut (s : Str) : Str :=
  match dashGroupEndIdx s with
  | some i => s.take i
  | none => s

/-- The trailing-dash cleanup: ws+, dash, ws* to the end; leftmost match,
    removed. -/
def trailDashAt : Str → Bool
  | c :: rest =>
      isWsC c &&
        (match rest.dropWhile (fun d => isWsC d) with
         | '-' :: r2 => r2.all (fun e => isWsC e)
         | _ => false)
  | [] => false

def trailDashIdx : Str → Option Nat
  | [] => none
  | c :: rest =>
      if trailDashAt (c :: rest) then some 0
      else (trailDashIdx rest).map (fun k => k + 1)

def trailDashCut (s : Str) : Str :=
  match trailDashIdx s with
  | some i => s.take i
  | none => s

/-- The leading-dash cleanup: caret, dash, ws*; removed. -/
def leadDashCut (s : Str) : Str :=
  match s with
  | '-' :: rest => rest.dropWhile (fun c => isWsC c)
  | _ => s

structure TVCleanResult where
  cleanName : Str
  originalName : Str
  season : Option Nat
  year : Option Nat
  quality : Option Str
deriving DecidableEq

/-- The tail of cleanFolderName past the two early returns, in source
    order: year from the original name; quality from the dots-to-spaces
    original; season marker extraction and cut; dots to spaces; the three
    word-delimited tag tables (each tag its own global replace); the
    bracketed release groups (no boundaries); the space-dash group cut;
    whitespace collapse; trim; trailing- and leading-dash cleanup. -/
def cleanFolderRest (folderName : Str) : TVCleanResult :=
  let year := tvYearScan folderName
  let originalWithSpaces := replClassSpace (fun c => c = '.') folderName
  let quality := (qualityTags.find? (fun q => altsTest [tokCI q] originalWithSpaces)).map
    (fun q => q.toList)
  let season := seasonScan folderName
  let name1 := if (seasonScan folderName).isSome then seasonCut folderName else folderName
  let name2 := replClassSpace (fun c => c = '.') name1
  let name3 := qualityTags.foldl (fun n tag => replaceAlts [tokCI tag] n) name2
  let name4 := sourceCodecTags.foldl (fun n tag => replaceAlts [tokCI tag] n) name3
  let name5 := audioTags.foldl (fun n tag => replaceAlts [tokCI tag] n) name4
  let name6 := releaseGroups.foldl
    (fun n g => replAltsNB [[Chunk.optCls (fun c => c = '['), Chunk.lit g.toList,
      Chunk.optCls (fun c => c = ']')]] n) name5
  let name7 := dashGroupEndCut name6
  let name8 := trimS (collapseWs name7)
  let name9 := leadDashCut (trailDashCut name8)
  { cleanName := name9, originalName := folderName, season := season, year := year,
    quality := quality }

/-- TVSeriesNameParser.cleanFolderName: the Russian-season early return,
    the renamed-folder early return, then the stripping pipeline. -/
def cleanFolderName (folderName : Str) : TVCleanResult :=
  match ruSeasonParse folderName with
  | some (nm, sn) => ⟨nm, folderName, some sn, none, none⟩
  | none =>
      match imdbFolderParse folderName with
      | some (nm, yr) => ⟨nm, folderName, none, some yr, none⟩
      | none => cleanFolderRest folderName

set_option maxRecDepth 10000


/-
  FileScanner.scanRecursive / isBDRipFolder / isTVSeriesFolder
  (file-scanner.util.ts) over a snapshot of the directory tree.
  JS word classes are ASCII-only, so the Cyrillic letters of the Russian
  episode markers are non-word characters: a leading word boundary before
  them holds exactly when the previous character is an ASCII word
  character.  The float comparisons count/2 are modelled by the exact
  integer forms 2*count.
-/

inductive Fs
  | file (name : Str)
  | dir (name : Str) (children : List Fs)

structure MovieFileInfo where
  fullPath : Str
  directory : Str
  fileName : Str
  extension : Str
  isFolder : Bool
  isTVSeries : Bool
deriving DecidableEq

def movieExtensions : List Str :=
  [".mkv".toList, ".mp4".toList, ".avi".toList, ".mov".toList, ".wmv".toList, ".flv".toList,
   ".webm".toList, ".m4v".toList, ".mpg".toList, ".mpeg".toList, ".m2v".toList, ".3gp".toList,
   ".ogv".toList]

def bdripIndicators : List Str :=
  ["bdmv".toList, "certificate".toList, "backup".toList, "playlist".toList, "clipinf".toList,
   "stream".toList]

/-- path.extname: the suffix from the last dot, empty for a leading dot or
    no dot. -/
def extnameOf (name : Str) : Str :=
  match lastDotIdx name with
  | some i => if 0 < i then name.drop i else []
  | none => []

def childDirNamesLower (children : List Fs) : List Str :=
  children.filterMap (fun e =>
    match e with
    | Fs.dir n _ => some (lowerS n)
    | _ => none)

/-- isBDRipFolder: some disc-structure indicator occurs among the
    lower-cased names of the immediate subdirectories. -/
def isBDRipFolder (children : List Fs) : Bool :=
  bdripIndicators.any (fun ind => (childDirNamesLower children).contains ind)

/-- Season-name test: caret (season|sezon-cyrillic) ws* digits+ dollar, flag i. -/
def seasonNameTest (name : Str) : Bool :=
  (match stripLitCI ("season".toList) name with
   | some r =>
       (let r1 := r.dropWhile (fun c => isWsC c)
        !r1.isEmpty && r1.all (fun c => isDigitC c))
   | none => false)
  ||
  (match stripLitCI ("сезон".toList) name with
   | some r =>
       (let r1 := r.dropWhile (fun c => isWsC c)
        !r1.isEmpty && r1.all (fun c => isDigitC c))
   | none => false)

/-- Torrent-style marker: class [dot ws], S, 1-2 digits, then class
    [dot ws] or the end (flag i, anywhere in the name). -/
def sMarkerAfter (r : Str) : Bool :=
  match r with
  | cS :: r2 =>
      cS.toLower = 's' &&
        (let ds := (r2.takeWhile (fun d => isDigitC d)).take 2
         !ds.isEmpty &&
           (match r2.drop ds.length with
            | [] => true
            | n :: _ => dotWsC n))
  | [] => false

def sMarkerTest : Str → Bool
  | [] => false
  | c :: rest => (dotWsC c && sMarkerAfter rest) || sMarkerTest rest

/-- Russian-style suffix: ws+, dash, ws+, S, 1-2 digits, dollar (flag i). -/
def dashSTest (name : Str) : Bool :=
  let r := name.reverse
  let ds := r.takeWhile (fun c => isDigitC c)
  if ds.isEmpty || 3 ≤ ds.length then false
  else
    match r.drop ds.length with
    | cS :: r2 =>
        cS.toLower = 's' &&
          (let w1 := r2.takeWhile (fun c => isWsC c)
           !w1.isEmpty &&
             (match r2.drop w1.length with
              | '-' :: r3 => !(r3.takeWhile (fun c => isWsC c)).isEmpty
              | _ => false))
    | [] => false

/-- Anchored piece caret 0 digit ws+ non-ws of the episode file pattern. -/
def zeroDigitTest (s : Str) : Bool :=
  match s with
  | '0' :: d :: rest =>
      isDigitC d &&
        (let w := rest.takeWhile (fun c => isWsC c)
         !w.isEmpty && !(rest.drop w.length).isEmpty)
  | _ => false

/-- The unanchored alternatives of the episode file pattern, scanned over
    every position: SxxEyy (no boundaries), digits ws* ser-cyrillic (no
    boundaries), boundary seriya-cyrillic ws* digits+, and boundary
    ser-cyrillic dot? ws* digits+.  The Cyrillic-initial alternatives
    carry a leading word boundary, which holds exactly when the previous
    character is an ASCII word character. -/
def epScan : Bool → Str → Bool
  | _, [] => false
  | prevWord, c :: rest =>
      ((matchChunksBT [Chunk.lit ("s".toList), Chunk.digitsB 1 2, Chunk.optCls dotOrWsC,
          Chunk.lit ("e".toList), Chunk.digitsB 1 2] (c :: rest)).isSome
      || (matchChunksBT [Chunk.digitsB 1 2, Chunk.ws0, Chunk.lit ("сер".toList)]
          (c :: rest)).isSome
      || (prevWord && (matchChunksBT [Chunk.lit ("серия".toList), Chunk.ws0, Chunk.digitsPlus]
          (c :: rest)).isSome)
      || (prevWord && (matchChunksBT [Chunk.lit ("сер".toList), Chunk.optCls (fun d => d = '.'),
          Chunk.ws0, Chunk.digitsPlus] (c :: rest)).isSome))
      || epScan (isWordC c) rest

/-- The episode file pattern of isTVSeriesFolder (first copy):
    caret digits(1-2) [dot ws dash]+ or SxxEyy or the Russian markers or
    caret 0 digit ws+ non-ws. -/
def epFilePat (s : Str) : Bool := episodeTest s || zeroDigitTest s || epScan false s

def childVideoFileNames (children : List Fs) : List Str :=
  children.filterMap (fun e =>
    match e with
    | Fs.file n => if movieExtensions.contains (lowerS (extnameOf n)) then some n else none
    | _ => none)

/-- isTVSeriesFolder (first copy): the three name-based season tests, then
    at least two video files, at least half matching the episode pattern,
    and fewer than half carrying a parenthesized year. -/
def isTVSeriesFolder (name : Str) (children : List Fs) : Bool :=
  seasonNameTest name || sMarkerTest name || dashSTest name ||
  (let videoFiles := childVideoFileNames children
   if videoFiles.length < 2 then false
   else
     let episodeFiles := videoFiles.filter (fun f => epFilePat f)
     if 2 * episodeFiles.length < videoFiles.length then false
     else
       let moviesWithYears := videoFiles.filter (fun f => hasParenYear f)
       if videoFiles.length ≤ 2 * moviesWithYears.length then false
       else true)

mutual

/-- FileScanner.scanRecursive over one directory entry: a BD/DVD-rip root
    is recorded and never descended into; otherwise a TV-series folder is
    recorded (and not descended into); otherwise directories are recursed
    and movie-extension files are recorded. -/
def scanEntry (dirPath : Str) : Fs → List MovieFileInfo
  | Fs.file name =>
      let ext := lowerS (extnameOf name)
      if movieExtensions.contains ext then
        [⟨dirPath ++ '/' :: name, dirPath, name, ext, false, false⟩]
      else []
  | Fs.dir name children =>
      if isBDRipFolder children then
        [⟨dirPath ++ '/' :: name, dirPath, name, [], true, false⟩]
      else if isTVSeriesFolder name children then
        [⟨dirPath ++ '/' :: name, dirPath, name, [], true, true⟩]
      else scanEntries (dirPath ++ '/' :: name) children

def scanEntries (dirPath : Str) : List Fs → List MovieFileInfo
  | [] => []
  | e :: rest => scanEntry dirPath e ++ scanEntries dirPath rest

end

/-- FileScanner.scanDirectory on an existing root directory. -/
def scanDirectory (rootPath : Str) (children : List Fs) : List MovieFileInfo :=
  scanEntries rootPath children


/-
  TMDbService.findBestMatch (src/unnamed/part_005).  The per-candidate
  normalizeTitle closure there is character-for-character the scanner's
  normalize pipeline, so normTitle is reused.  Floats are modelled as
  exact numbers: popularity and vote_average as rationals, scores as
  reals (the logarithm is irrational, hence the noncomputable marker on
  the score-dependent functions; everything up to the scoring step stays
  executable).  searchYear is an Option; the falsy guard
  `if (searchYear)` corresponds to none.
-/

structure TMDbMovie where
  title : Str
  original_title : Str
  release_date : Str
  vote_average : ℚ
  vote_count : Nat
  original_language : Str
  popularity : ℚ

/-- parseInt: optional leading whitespace and sign, then a maximal run of
    decimal digits; none when no digit follows (NaN). -/
def parseIntJS (s : Str) : Option Int :=
  let s1 := s.dropWhile (fun c => isWsC c)
  match s1 with
  | '-' :: r =>
      let ds := r.takeWhile (fun c => isDigitC c)
      if ds.isEmpty then none else some (-(digitsVal ds : Int))
  | '+' :: r =>
      let ds := r.takeWhile (fun c => isDigitC c)
      if ds.isEmpty then none else some ((digitsVal ds : Int))
  | r =>
      let ds := r.takeWhile (fun c => isDigitC c)
      if ds.isEmpty then none else some ((digitsVal ds : Int))

/-- The year read from release_date.substring(0,4): the empty string is
    falsy and yields 0; otherwise parseInt, with none standing for NaN,
    which fails every numeric comparison. -/
def movieYearOf (m : TMDbMovie) : Option Int :=
  if m.release_date.isEmpty then some 0
  else parseIntJS (m.release_date.take 4)

/-- The candidate pool of findBestMatch: exact normalized-title matches
    when there are any, else prefix/suffix partial matches when there are
    any, else all results; then, when a search year is given, the
    within-one-year filter, applied only when it keeps something. -/
def candPool (results : List TMDbMovie) (searchTitle : Str) (searchYear : Option Nat) :
    List TMDbMovie :=
  let ns := normTitle searchTitle
  let exactMatches := results.filter (fun m =>
    normTitle m.title = ns || normTitle m.original_title = ns)
  let partialMatches := results.filter (fun m =>
    (ns ++ [' ']).isPrefixOf (normTitle m.title) ||
    (ns ++ [' ']).isPrefixOf (normTitle m.original_title) ||
    (normTitle m.title ++ [' ']).isPrefixOf ns ||
    (normTitle m.original_title ++ [' ']).isPrefixOf ns)
  let candidates :=
    if exactMatches.isEmpty = false then exactMatches
    else if partialMatches.isEmpty = false then partialMatches
    else results
  match searchYear with
  | some yr =>
      let yearMatches := candidates.filter (fun m =>
        match movieYearOf m with
        | some v => decide ((v - (yr : Int)).natAbs ≤ 1)
        | none => false)
      if yearMatches.isEmpty = false then yearMatches else candidates
  | none => candidates

/-- The score of findBestMatch: +1000 for original language en, plus
    log10(max(voteCount or 1, 1))*100, plus popularity*0.5, plus
    voteAverage*5.  The JS `m.vote_count || 1` maps 0 to 1. -/
noncomputable def codeScore (m : TMDbMovie) : ℝ :=
  (if m.original_language = ("en").toList then (1000 : ℝ) else 0)
  + Real.logb 10 ((max (if m.vote_count = 0 then 1 else m.vote_count) 1 : ℕ) : ℝ) * 100
  + (m.popularity : ℝ) * 0.5
  + (m.vote_average : ℝ) * 5

/-- The score as the spec words it: the natural logarithm
    ln(max(voteCount,1))*100 in place of the source's base-10 logarithm.
    Written from the spec's sentence, for comparison with codeScore. -/
noncomputable def specScore (m : TMDbMovie) : ℝ :=
  (if m.original_language = ("en").toList then (1000 : ℝ) else 0)
  + Real.log ((max (if m.vote_count = 0 then 1 else m.vote_count) 1 : ℕ) : ℝ) * 100
  + (m.popularity : ℝ) * 0.5
  + (m.vote_average : ℝ) * 5

/-- Stable insertion into a descending-sorted list: the inserted element
    goes before the first element it does not score strictly below.
    Processing the input right-to-left (sortDesc) makes this the stable
    descending sort that Array.prototype.sort performs with the
    comparator (a, b) => b.score - a.score. -/
noncomputable def insertDesc (f : TMDbMovie → ℝ) (x : TMDbMovie) :
    List TMDbMovie → List TMDbMovie
  | [] => [x]
  | y :: ys => if f y ≤ f x then x :: y :: ys else y :: insertDesc f x ys

/-- Stable sort by descending score. -/
noncomputable def sortDesc (f : TMDbMovie → ℝ) : List TMDbMovie → List TMDbMovie
  | [] => []
  | x :: xs => insertDesc f x (sortDesc f xs)

/-- findBestMatch: empty input gives null; otherwise the head of the
    candidate pool stable-sorted by descending codeScore (the pool is
    never empty, so `scored[0]?.movie || null` is its head). -/
noncomputable def findBestMatch (results : List TMDbMovie) (searchTitle : Str)
    (searchYear : Option Nat) : Option TMDbMovie :=
  if results.isEmpty then none
  else (sortDesc codeScore (candPool results searchTitle searchYear)).head?

/-- findBestMatch as the spec words it: identical selection, but ranked
    by the natural-log score.  Written from the spec's sentence, for
    comparison with findBestMatch. -/
noncomputable def specBestMatch (results : List TMDbMovie) (searchTitle : Str)
    (searchYear : Option Nat) : Option TMDbMovie :=
  if results.isEmpty then none
  else (sortDesc specScore (candPool results searchTitle searchYear)).head?

/-- First counterexample candidate: not English, a hundred votes,
    nothing else. -/
def mvA : TMDbMovie :=
  ⟨("Solaris").toList, ("Solaris").toList, [], 0, 100, ("ru").toList, 0⟩

/-- Second counterexample candidate: not English, one vote, popularity
    600. -/
def mvB : TMDbMovie :=
  ⟨("Solaris").toList, ("Solaris").toList, [], 0, 1, ("ru").toList, 600⟩

/-
  MovieScannerTMDbService.markDeletedMovies / scanMovies / the
  title-match validation gate of processMovieFile and createErrorMovie
  (movie-scanner-tmdb.service.ts), over the MovieRepository that is
  bundled into thumbnail.controller.ts after its document separator,
  backed by the movies table (schema in the SQL bundle, which declares
  UNIQUE(current_path)).  A row is reduced to the columns the claims
  depend on: current_path, status and error_message; the catalog list
  carries the rows in table (insertion) order.
-/

/-- Movie.status (movie.types.ts): the lifecycle status
    active | deleted | error. -/
inductive EStatus
  | active
  | deleted
  | error
deriving DecidableEq

/-- A movies-table row (the Movie entity of movie.types.ts; schema with
    UNIQUE(current_path)), reduced to current_path, status and
    error_message. -/
structure CatEntry where
  path : Str
  status : EStatus
  msg : Str
deriving DecidableEq

abbrev Catalog := List CatEntry

/-- MovieRepository.getAllActivePaths: SELECT current_path FROM movies
    WHERE status is active — the paths of the active rows, in table
    order. -/
def getAllActivePaths (cat : Catalog) : List Str :=
  (cat.filter (fun e => e.status = EStatus.active)).map (fun e => e.path)

/-- MovieRepository.markAsDeleted: UPDATE movies SET status deleted
    WHERE current_path = path — a status change on every row at that
    path (at most one, by the schema's UNIQUE(current_path)); nothing is
    removed.  The updated_at column it also touches is outside the
    reduced row. -/
def markAsDeleted (cat : Catalog) (p : Str) : Catalog :=
  cat.map (fun e => if e.path = p then ⟨e.path, EStatus.deleted, e.msg⟩ else e)

/-- MovieScannerTMDbService.markDeletedMovies: walk the repository's
    active paths (computed up front), mark every one that is not among
    the scan's current paths as deleted, and count how many were
    marked. -/
def markDeletedMovies (cat : Catalog) (currentPaths : List Str) : Catalog × Nat :=
  (getAllActivePaths cat).foldl
    (fun acc p =>
      if currentPaths.contains p then acc
      else (markAsDeleted acc.1 p, acc.2 + 1))
    (cat, 0)

/-- MovieRepository.findByPath: SELECT * FROM movies WHERE
    current_path = ? — get returns the first matching row. -/
def findByPath (repo : Catalog) (p : Str) : Option CatEntry :=
  repo.find? (fun e => e.path = p)

/-- MovieRepository.update applied to the row findByPath returned: the
    UPDATE by id touches exactly the first row at the path, setting its
    status to error and its error_message. -/
def updFirstAt : Catalog → Str → Str → Catalog
  | [], _, _ => []
  | e :: rest, p, message =>
      if e.path = p then ⟨e.path, EStatus.error, message⟩ :: rest
      else e :: updFirstAt rest p message

/-- MovieScannerTMDbService.createErrorMovie: when findByPath finds an
    existing row at the file's path, that row is updated in place to
    status error with the message; otherwise MovieRepository.create
    INSERTs a fresh error row (appended in table order). -/
def createErrorMovie (repo : Catalog) (p : Str) (message : Str) : Catalog :=
  match findByPath repo p with
  | some _ => updFirstAt repo p message
  | none => repo ++ [⟨p, EStatus.error, message⟩]

/-- The template literal of the title-mismatch rejection. -/
def titleMismatchMsg (titleFound cleanName : Str) : Str :=
  ("Title mismatch: found \"").toList ++ titleFound
    ++ ("\" instead of \"").toList ++ cleanName ++ ("\"").toList

/-- The mutable state of scanMovies: the scanned and error counters of
    the ScanResult, the live-path set and the repository. -/
structure ScanSt where
  scanned : Nat
  errors : Nat
  currentPaths : List Str
  repo : Catalog

/-- The title-match validation gate of processMovieFile: when neither
    the candidate's title nor its original title matches the cleaned
    search name, write the title-mismatch error entry for the file's
    path, count one error, and return from the item (the Bool records
    that the gate rejected and processMovieFile returned here). -/
def titleGate (cleanName titleF origF : Str) (fi : MovieFileInfo) (st : ScanSt) :
    ScanSt × Bool :=
  if !isTitleMatch cleanName titleF && !isTitleMatch cleanName origF then
    (⟨st.scanned, st.errors + 1, st.currentPaths,
      createErrorMovie st.repo fi.fullPath (titleMismatchMsg titleF cleanName)⟩, true)
  else (st, false)

/-- The per-item loop of scanMovies: count the item, add its path to the
    live set, then run processMovieFile inside try/catch — the processor
    is a parameter returning its state change and whether it threw; a
    thrown item adds one error and the loop continues with the rest. -/
def scanLoop (proc : MovieFileInfo → ScanSt → ScanSt × Bool) :
    List MovieFileInfo → ScanSt → ScanSt
  | [], st => st
  | f :: rest, st =>
      let st1 : ScanSt := ⟨st.scanned + 1, st.errors, st.currentPaths ++ [f.fullPath], st.repo⟩
      let pr := proc f st1
      let st2 := if pr.2 then ⟨pr.1.scanned, pr.1.errors + 1, pr.1.currentPaths, pr.1.repo⟩
                 else pr.1
      scanLoop proc rest st2

/-! ### Theorems -/

/-- Claim C9: the reconciler's deterministic title-match gate is symmetric:
    isTitleMatch a b = isTitleMatch b a for all titles a and b.  Every
    branch of the function (normalized equality, the short-title branch,
    the starts-with branch) is invariant under swapping the arguments. -/
theorem isTitleMatch_symm (a b : Str) : isTitleMatch a b = isTitleMatch b a := by
  unfold isTitleMatch
  by_cases h : normTitle a = normTitle b
  · simp [h]
  · have h' : ¬ (normTitle b = normTitle a) := fun e => h e.symm
    simp only [if_neg h, if_neg h']
    by_cases h2 : (sigWords1 (normTitle a)).length ≤ 2 ∨ (sigWords1 (normTitle b)).length ≤ 2
    · have h2' : (sigWords1 (normTitle b)).length ≤ 2 ∨ (sigWords1 (normTitle a)).length ≤ 2 :=
        h2.symm
      simp only [if_pos h2, if_pos h2']
      simp [h, h']
    · have h2' : ¬ ((sigWords1 (normTitle b)).length ≤ 2 ∨ (sigWords1 (normTitle a)).length ≤ 2) := by
        intro hc; exact h2 hc.symm
      simp only [if_neg h2, if_neg h2']
      exact Bool.or_comm _ _

lemma normTM_alien : normTM ("Alien".toList) = ("alien".toList) := by decide

lemma normTM_aliens : normTM ("Aliens".toList) = ("aliens".toList) := by decide

lemma isNormalizedMatch_alien :
    isNormalizedMatch ("Alien".toList) ("Aliens".toList) = ⟨false, 0, MMethod.normalized⟩ := by
  unfold isNormalizedMatch
  simp only [normTM_alien, normTM_aliens]
  rw [if_neg (by decide), if_pos (by decide), if_neg ?_]
  · intro hc
    exact absurd hc.2 (by decide)

lemma isFuzzyMatch_alien :
    isFuzzyMatch ("Alien".toList) ("Aliens".toList) = ⟨false, 0, MMethod.fuzzy⟩ := by
  have hw1 : extractSigWords ("Alien".toList) = [("alien".toList)] := by decide
  have hw2 : extractSigWords ("Aliens".toList) = [("aliens".toList)] := by decide
  unfold isFuzzyMatch
  simp only [hw1, hw2]
  rw [if_neg (by decide)]
  have hc : (([("alien".toList)].filter
      (fun w => [("aliens".toList)].contains w)) : List Str) = [] := by decide
  simp only [hc]
  norm_num

/-- Claim C5: match("Alien", "Aliens") yields isMatch = false.  The exact
    tier fails; the containment tier is reached (one normalized title
    contains the other and the length ratio 5/6 clears 0.7) but is blocked
    by the singular/plural guard; the fuzzy confidence is below 0.8; hence
    for every semantic collaborator that itself rejects the pair, the
    cascade rejects it. -/
theorem alien_aliens_no_match :
    (∀ llm : Str → Str → MatchResult,
      (llm ("Alien".toList) ("Aliens".toList)).isMatch = false →
      (areSameMovie llm true (7/10) ("Alien".toList) ("Aliens".toList)).isMatch = false)
    ∧ isExactMatch ("Alien".toList) ("Aliens".toList) = false
    ∧ (isNormalizedMatch ("Alien".toList) ("Aliens".toList)).isMatch = false
    ∧ infixB (normTM ("Alien".toList)) (normTM ("Aliens".toList)) = true
    ∧ normTM ("Aliens".toList) = normTM ("Alien".toList) ++ ['s']
    ∧ ((normTM ("Alien".toList)).length : ℚ) / ((normTM ("Aliens".toList)).length : ℚ) ≥ 7/10
    ∧ (isFuzzyMatch ("Alien".toList) ("Aliens".toList)).confidence < 8/10 := by
  refine ⟨?_, by decide, by rw [isNormalizedMatch_alien],
    by rw [normTM_alien, normTM_aliens]; decide,
    by rw [normTM_alien, normTM_aliens]; decide, ?_, ?_⟩
  · intro llm h
    have e1 : isExactMatch ("Alien".toList) ("Aliens".toList) = false := by decide
    unfold areSameMovie
    simp only [e1, isNormalizedMatch_alien, isFuzzyMatch_alien, Bool.false_eq_true, if_false,
      Bool.false_and, if_true, ite_self]
    exact h
  · rw [normTM_alien, normTM_aliens]
    norm_num
  · rw [isFuzzyMatch_alien]
    norm_num

/-- Witness for C5: a concrete rejecting collaborator. -/
theorem alien_aliens_no_match_witness :
    (areSameMovie (fun _ _ => ⟨false, 0, MMethod.llm⟩) true (7/10)
      ("Alien".toList) ("Aliens".toList)).isMatch = false :=
  alien_aliens_no_match.1 (fun _ _ => ⟨false, 0, MMethod.llm⟩) rfl

/-- Claim C7, counterexample: on "12 Monkeys (1995).mkv" the episode
    pattern matches the extension-stripped name and the collection pattern
    does not, yet the leading numeric prefix is kept (the cleaned name is
    "12 Monkeys"), because the TV-episode flag is suppressed by the
    parenthesized year; so "the prefix is removed exactly when the
    collection-item pattern or the episode pattern matched" is false. -/
theorem c7_counterexample :
    episodeTest (extStrip (("12 Monkeys (1995).mkv").toList)) = true
    ∧ collectionTest (extStrip (("12 Monkeys (1995).mkv").toList)) = false
    ∧ (cleanMovieName (("12 Monkeys (1995).mkv").toList)).cleanName = ("12 Monkeys".toList)
    ∧ (cleanMovieName (("12 Monkeys (1995).mkv").toList)).isTVEpisode = false :=
  ⟨by decide, by decide, by decide, by decide⟩

/-- Claim C7 (amended): a parenthesized year in the extension-stripped
    name forces isTVEpisode = false even when the name begins with a
    number; the numeric-prefix strip is applied only under the collection
    flag or the TV-episode flag, so a bare year-carrying title keeps its
    leading number: "3 Days to Kill (2014)" and "12 Monkeys (1995)" are
    cleaned with their numbers intact. -/
theorem c7_amended :
    (∀ fileName : Str, hasParenYear (extStrip fileName) = true →
      (cleanMovieName fileName).isTVEpisode = false)
    ∧ (cleanMovieName (("3 Days to Kill (2014).mkv").toList)).cleanName
        = ("3 Days to Kill".toList)
    ∧ (cleanMovieName (("12 Monkeys (1995).mkv").toList)).cleanName
        = ("12 Monkeys".toList) := by
  refine ⟨?_, by decide, by decide⟩
  intro f h
  simp only [cleanMovieName]
  rw [h]
  simp

/-- Witness for C7 (amended): the year-carrying, digit-leading
    "9 (2009).mkv" is not flagged as a TV episode. -/
theorem c7_amended_witness :
    (cleanMovieName (("9 (2009).mkv").toList)).isTVEpisode = false :=
  c7_amended.1 (("9 (2009).mkv").toList) (by decide)

/-- Claim C6, counterexample: cleaning is not idempotent.  For
    "hd_movie.mkv" the quality token "hd" survives the first pass (the
    underscore, a word character, blocks its word boundary), the
    underscore is then turned into a space, and the second pass strips the
    now-delimited token: clean once gives "hd movie", cleaning that gives
    "movie". -/
theorem c6_counterexample :
    (cleanMovieName (("hd_movie.mkv").toList)).cleanName = ("hd movie".toList)
    ∧ (cleanMovieName ((cleanMovieName (("hd_movie.mkv").toList)).cleanName)).cleanName
        = ("movie".toList)
    ∧ (cleanMovieName ((cleanMovieName (("hd_movie.mkv").toList)).cleanName)).cleanName
        ≠ (cleanMovieName (("hd_movie.mkv").toList)).cleanName :=
  ⟨by decide, by decide, by decide⟩

/-
  Idempotence analysis of cleanMovieName: membership and canonical-form
  lemmas about the final pipeline stages.
-/

lemma mem_dropWs {s : Str} {ch : Char} (h : ch ∈ dropWs s) : ch ∈ s := by
  induction s with
  | nil => simp [dropWs] at h
  | cons c rest ih =>
      by_cases hc : isWsC c
      · have : ch ∈ dropWs rest := by simpa [dropWs, List.dropWhile, hc] using h
        exact List.mem_cons_of_mem _ (ih this)
      · simpa [dropWs, List.dropWhile, hc] using h

lemma mem_trimEndS {s : Str} {ch : Char} (h : ch ∈ trimEndS s) : ch ∈ s := by
  induction s with
  | nil => simp [trimEndS] at h
  | cons c rest ih =>
      by_cases hc : isWsC c
      · rw [trimEndS, if_pos hc] at h
        rcases hr : trimEndS rest with _ | ⟨x, xs⟩
        · rw [hr] at h; simp at h
        · rw [hr] at h
          rcases List.mem_cons.mp h with e | hm
          · exact e ▸ List.mem_cons_self _ _
          · exact List.mem_cons_of_mem _ (ih (hr ▸ hm))
      · rw [trimEndS, if_neg hc] at h
        rcases List.mem_cons.mp h with e | hm
        · exact e ▸ List.mem_cons_self _ _
        · exact List.mem_cons_of_mem _ (ih hm)

lemma mem_trimS {s : Str} {ch : Char} (h : ch ∈ trimS s) : ch ∈ s :=
  mem_dropWs (mem_trimEndS h)

lemma mem_collapseWsAux {s : Str} {b : Bool} {ch : Char} (h : ch ∈ collapseWsAux s b) :
    ch = ' ' ∨ (ch ∈ s ∧ isWsC ch = false) := by
  induction s generalizing b with
  | nil => simp [collapseWsAux] at h
  | cons c rest ih =>
      by_cases hc : isWsC c
      · rw [collapseWsAux, if_pos hc] at h
        by_cases hb : b
        · rw [if_pos hb] at h
          rcases ih h with e | ⟨hm, hw⟩
          · exact Or.inl e
          · exact Or.inr ⟨List.mem_cons_of_mem _ hm, hw⟩
        · rw [if_neg hb] at h
          rcases List.mem_cons.mp h with e | hm
          · exact Or.inl e
          · rcases ih hm with e | ⟨hm2, hw⟩
            · exact Or.inl e
            · exact Or.inr ⟨List.mem_cons_of_mem _ hm2, hw⟩
      · rw [collapseWsAux, if_neg hc] at h
        rcases List.mem_cons.mp h with e | hm
        · exact Or.inr ⟨e ▸ List.mem_cons_self _ _, e ▸ (by simpa using hc)⟩
        · rcases ih hm with e | ⟨hm2, hw⟩
          · exact Or.inl e
          · exact Or.inr ⟨List.mem_cons_of_mem _ hm2, hw⟩

lemma mem_collapseWs {s : Str} {ch : Char} (h : ch ∈ collapseWs s) :
    ch = ' ' ∨ (ch ∈ s ∧ isWsC ch = false) := mem_collapseWsAux h

lemma mem_replClassSpace {p : Char → Bool} {s : Str} {ch : Char}
    (h : ch ∈ replClassSpace p s) : ch = ' ' ∨ (ch ∈ s ∧ p ch = false) := by
  rcases List.mem_map.mp h with ⟨a, ha, he⟩
  by_cases hp : p a
  · rw [if_pos hp] at he; exact Or.inl he.symm
  · rw [if_neg hp] at he
    exact Or.inr ⟨he ▸ ha, he ▸ (by simpa using hp)⟩

lemma replClassSpace_eq_self {p : Char → Bool} {s : Str} (h : ∀ ch ∈ s, p ch = false) :
    replClassSpace p s = s := by
  unfold replClassSpace
  induction s with
  | nil => rfl
  | cons c rest ih =>
      simp only [List.map_cons]
      rw [if_neg (by simp [h c (List.mem_cons_self _ _)]), ih (fun ch hm => h ch (List.mem_cons_of_mem _ hm))]

lemma collapseWsAux_eq_self {s : Str} : ∀ {b : Bool}, canonAux b s = true → collapseWsAux s b = s := by
  induction s with
  | nil => intro b _; rfl
  | cons c rest ih =>
      intro b h
      by_cases hc : isWsC c
      · rw [canonAux, if_pos hc] at h
        simp only [Bool.and_eq_true, Bool.not_eq_true'] at h
        obtain ⟨⟨hsp, hb⟩, hrest⟩ := h
        subst hb
        rw [collapseWsAux, if_pos hc, if_neg (by simp)]
        have hcsp : c = ' ' := by simpa using hsp
        rw [ih hrest, hcsp]
      · rw [canonAux, if_neg hc] at h
        rw [collapseWsAux, if_neg hc, ih h]

lemma canonAux_false_of_true {s : Str} (h : canonAux true s = true) : canonAux false s = true := by
  cases s with
  | nil => rfl
  | cons c rest =>
      by_cases hc : isWsC c
      · rw [canonAux, if_pos hc] at h; simp at h
      · rw [canonAux, if_neg hc] at h ⊢; exact h

lemma collapseWs_eq_self {s : Str} (h : canonWs s = true) : collapseWs s = s := by
  cases s with
  | nil => rfl
  | cons c rest =>
      have h' : canonAux true (c :: rest) = true := h
      exact collapseWsAux_eq_self (canonAux_false_of_true h')

lemma headWsB_false_of_canonAux_true {s : Str} (h : canonAux true s = true) :
    headWsB s = false := by
  cases s with
  | nil => rfl
  | cons c rest =>
      by_cases hc : isWsC c
      · rw [canonAux, if_pos hc] at h; simp at h
      · simpa [headWsB] using hc

lemma dropWs_eq_self_of_headWsB {s : Str} (h : headWsB s = false) : dropWs s = s := by
  cases s with
  | nil => rfl
  | cons c rest =>
      have : isWsC c = false := h
      simp [dropWs, List.dropWhile, this]

lemma trimEndS_eq_self {s : Str} : ∀ {b : Bool}, canonAux b s = true → trimEndS s = s := by
  induction s with
  | nil => intro b _; rfl
  | cons c rest ih =>
      intro b h
      by_cases hc : isWsC c
      · rw [canonAux, if_pos hc] at h
        simp only [Bool.and_eq_true, Bool.not_eq_true'] at h
        obtain ⟨⟨hsp, hb⟩, hrest⟩ := h
        have hres : rest ≠ [] := by
          intro e; subst e; simp [canonAux] at hrest
        rw [trimEndS, if_pos hc, ih hrest]
        cases rest with
        | nil => exact absurd rfl hres
        | cons x xs => rfl
      · rw [canonAux, if_neg hc] at h
        rw [trimEndS, if_neg hc, ih h]

lemma trimS_eq_self {s : Str} (h : canonWs s = true) : trimS s = s := by
  cases s with
  | nil => rfl
  | cons c rest =>
      have h' : canonAux true (c :: rest) = true := h
      unfold trimS
      rw [dropWs_eq_self_of_headWsB (headWsB_false_of_canonAux_true h'), trimEndS_eq_self h']

lemma colOkAux_collapseWsAux (s : Str) : ∀ b : Bool, colOkAux b (collapseWsAux s b) = true := by
  induction s with
  | nil => intro b; rfl
  | cons c rest ih =>
      intro b
      by_cases hc : isWsC c
      · rw [collapseWsAux, if_pos hc]
        by_cases hb : b
        · rw [if_pos hb, hb]; exact ih true
        · rw [if_neg hb]
          have : colOkAux false (' ' :: collapseWsAux rest true) = true := by
            rw [colOkAux, if_pos (by decide)]
            simp only [Bool.and_eq_true]
            exact ⟨⟨by decide, by decide⟩, ih true⟩
          simpa [Bool.not_eq_true] using (by
            cases b with
            | false => exact this
            | true => exact absurd rfl hb)
      · rw [collapseWsAux, if_neg hc, colOkAux, if_neg hc]
        exact ih false

lemma colOkAux_false_of_true {s : Str} (h : colOkAux true s = true) : colOkAux false s = true := by
  cases s with
  | nil => rfl
  | cons c rest =>
      by_cases hc : isWsC c
      · rw [colOkAux, if_pos hc] at h; simp at h
      · rw [colOkAux, if_neg hc] at h ⊢; exact h

lemma headWsB_false_of_colOkAux_true {s : Str} (h : colOkAux true s = true) :
    headWsB s = false := by
  cases s with
  | nil => rfl
  | cons c rest =>
      by_cases hc : isWsC c
      · rw [colOkAux, if_pos hc] at h; simp at h
      · simpa [headWsB] using hc

lemma colOk_dropWs {s : Str} (h : colOkAux false s = true) :
    colOkAux false (dropWs s) = true ∧ headWsB (dropWs s) = false := by
  cases s with
  | nil => exact ⟨rfl, rfl⟩
  | cons c rest =>
      by_cases hc : isWsC c
      · rw [colOkAux, if_pos hc] at h
        simp only [Bool.and_eq_true] at h
        obtain ⟨_, hrest⟩ := h
        have hhead : headWsB rest = false := headWsB_false_of_colOkAux_true hrest
        have hdw : dropWs (c :: rest) = rest := by
          simp only [dropWs, List.dropWhile, hc]
          exact dropWs_eq_self_of_headWsB hhead
        rw [hdw]
        exact ⟨colOkAux_false_of_true hrest, hhead⟩
      · have hdw : dropWs (c :: rest) = c :: rest := by
          have : isWsC c = false := by simpa using hc
          simp [dropWs, List.dropWhile, this]
        rw [hdw]
        refine ⟨h, by simpa [headWsB] using hc⟩

lemma canonAux_trimEndS {s : Str} : ∀ {b : Bool}, colOkAux b s = true →
    (b = true → s ≠ []) → canonAux b (trimEndS s) = true := by
  induction s with
  | nil =>
      intro b _ hb
      cases b with
      | false => rfl
      | true => exact absurd rfl (hb rfl)
  | cons c rest ih =>
      intro b h _
      by_cases hc : isWsC c
      · rw [colOkAux, if_pos hc] at h
        simp only [Bool.and_eq_true, Bool.not_eq_true'] at h
        obtain ⟨⟨hsp, hb⟩, hrest⟩ := h
        subst hb
        rw [trimEndS, if_pos hc]
        rcases hr : trimEndS rest with _ | ⟨x, xs⟩
        · rfl
        · have hne : rest ≠ [] := by
            intro e; subst e; simp [trimEndS] at hr
          have : canonAux true (trimEndS rest) = true := ih hrest (fun _ => hne)
          rw [hr] at this
          rw [canonAux, if_pos hc]
          simp only [Bool.and_eq_true, Bool.not_eq_true']
          exact ⟨⟨hsp, trivial⟩, this⟩
      · rw [colOkAux, if_neg hc] at h
        rw [trimEndS, if_neg hc, canonAux, if_neg hc]
        exact ih h (fun e => by simp at e)

lemma headWsB_trimEndS {s : Str} (h : headWsB s = false) : headWsB (trimEndS s) = false := by
  cases s with
  | nil => rfl
  | cons c rest =>
      have hc : isWsC c = false := h
      rw [trimEndS, if_neg (by simp [hc])]
      simpa [headWsB] using hc

lemma canonAux_true_of_false_head {t : Str} (hne : t ≠ []) (hh : headWsB t = false)
    (h : canonAux false t = true) : canonAux true t = true := by
  cases t with
  | nil => exact absurd rfl hne
  | cons c rest =>
      have hc : isWsC c = false := hh
      rw [canonAux, if_neg (by simp [hc])] at h ⊢
      exact h

lemma canonWs_trim_collapse (s : Str) : canonWs (trimS (collapseWs s)) = true := by
  have hu : colOkAux false (collapseWs s) = true := colOkAux_collapseWsAux s false
  obtain ⟨hv, hvh⟩ := colOk_dropWs hu
  unfold trimS
  have hmain : canonAux false (trimEndS (dropWs (collapseWs s))) = true :=
    canonAux_trimEndS hv (fun e => by simp at e)
  rcases ht : trimEndS (dropWs (collapseWs s)) with _ | ⟨x, xs⟩
  · rfl
  · have hh : headWsB (trimEndS (dropWs (collapseWs s))) = false := headWsB_trimEndS hvh
    rw [ht] at hmain hh
    have : canonAux true (x :: xs) = true :=
      canonAux_true_of_false_head (by simp) hh hmain
    exact this

lemma cleanName_shape (x : Str) :
    ∃ w : Str, (cleanMovieName x).cleanName =
      trimS (collapseWs (replClassSpace (fun c => (c = '.') || (c = '_'))
        (replClassSpace isBracketC w))) :=
  ⟨_, rfl⟩

lemma canonWs_cleanName (x : Str) : canonWs ((cleanMovieName x).cleanName) = true := by
  obtain ⟨w, hw⟩ := cleanName_shape x
  rw [hw]
  exact canonWs_trim_collapse _

lemma cleanName_chars (x : Str) {ch : Char} (h : ch ∈ (cleanMovieName x).cleanName) :
    ch = ' ' ∨ (isWsC ch = false
      ∧ (decide (ch = '.') || decide (ch = '_')) = false ∧ isBracketC ch = false) := by
  obtain ⟨w, hw⟩ := cleanName_shape x
  rw [hw] at h
  rcases mem_collapseWs (mem_trimS h) with e | ⟨h1, hws⟩
  · exact Or.inl e
  rcases mem_replClassSpace h1 with e | ⟨h2, hp2⟩
  · exact absurd (e ▸ hws) (by decide)
  rcases mem_replClassSpace h2 with e | ⟨_, hp1⟩
  · exact absurd (e ▸ hws) (by decide)
  exact Or.inr ⟨hws, hp2, hp1⟩

lemma fstDotIdx_none {s : Str} (h : ∀ ch ∈ s, ¬ ch = '.') : fstDotIdx s = none := by
  induction s with
  | nil => rfl
  | cons c rest ih =>
      rw [fstDotIdx, if_neg (h c (List.mem_cons_self _ _)),
        ih (fun ch hm => h ch (List.mem_cons_of_mem _ hm))]
      rfl

lemma extStrip_eq_self {s : Str} (h : ∀ ch ∈ s, ¬ ch = '.') : extStrip s = s := by
  unfold extStrip lastDotIdx
  rw [fstDotIdx_none (fun ch hm => h ch (List.mem_reverse.mp hm))]

lemma yearParenAt_false {s : Str} (h : ('(' : Char) ∉ s) : yearParenAt s = false := by
  rcases s with _ | ⟨c0, _ | ⟨a, _ | ⟨b, _ | ⟨c, _ | ⟨d, _ | ⟨c5, tl⟩⟩⟩⟩⟩⟩ <;> try rfl
  have h0 : ¬ (c0 = '(') := fun e => h (e ▸ List.mem_cons_self _ _)
  simp [yearParenAt, h0]

lemma hasParenYear_false {s : Str} (h : ('(' : Char) ∉ s) : hasParenYear s = false := by
  induction s with
  | nil => rfl
  | cons c rest ih =>
      rw [hasParenYear, yearParenAt_false h,
        ih (fun hm => h (List.mem_cons_of_mem _ hm))]
      rfl

lemma parenYearNoNl_false {s : Str} (h : ('(' : Char) ∉ s) : parenYearNoNl s = false := by
  induction s with
  | nil => rfl
  | cons c rest ih =>
      rw [parenYearNoNl, yearParenAt_false h,
        ih (fun hm => h (List.mem_cons_of_mem _ hm))]
      simp

lemma collectionTest_false {s : Str} (h : ('(' : Char) ∉ s) : collectionTest s = false := by
  cases s with
  | nil => rfl
  | cons d1 t =>
      cases t with
      | nil => rfl
      | cons c2 rest =>
          have hrest : ('(' : Char) ∉ rest :=
            fun hm => h (List.mem_cons_of_mem _ (List.mem_cons_of_mem _ hm))
          cases rest with
          | nil => simp [collectionTest, parenYearNoNl_false hrest]
          | cons c3 rest2 =>
              simp [collectionTest, parenYearNoNl_false hrest,
                parenYearNoNl_false (fun hm => hrest (List.mem_cons_of_mem _ hm))]

lemma stripLeadNum_eq_self {s : Str} (h : episodeTest s = false) : stripLeadNum s = s := by
  unfold episodeTest at h
  unfold stripLeadNum
  rcases hm : matchChunksBT [Chunk.digitsB 1 2, Chunk.clsPlus epSepC] s with _ | r
  · rfl
  · rw [hm] at h
    simp at h

/-- Claim C6 (amended): cleaning is idempotent for every input whose
    cleaned name no longer triggers a strip pattern — the episode-prefix
    pattern, the release-group decorations, the five noise-token tables,
    and truncation at a year occurring at a positive index.  (The
    counterexample forces exactly this proviso: a noise token can survive
    the first pass masked by an adjacent word character and be stripped on
    the second.)  The canonical-whitespace shape of cleaned names and the
    absence of dots, underscores, brackets and parentheses in them are
    proved, not assumed. -/
theorem clean_idempotent_nf (x : Str)
    (hep : episodeTest ((cleanMovieName x).cleanName) = false)
    (hdash : dashGroupRepl ((cleanMovieName x).cleanName) = (cleanMovieName x).cleanName)
    (hitw : replITonWs ((cleanMovieName x).cleanName) = (cleanMovieName x).cleanName)
    (hitd : replITonDot ((cleanMovieName x).cleanName) = (cleanMovieName x).cleanName)
    (hq : replaceAlts qualityAlts ((cleanMovieName x).cleanName) = (cleanMovieName x).cleanName)
    (hcod : replaceAlts codecAlts ((cleanMovieName x).cleanName) = (cleanMovieName x).cleanName)
    (haud : replaceAlts audioAlts ((cleanMovieName x).cleanName) = (cleanMovieName x).cleanName)
    (hlang : replaceAlts languageAlts ((cleanMovieName x).cleanName) = (cleanMovieName x).cleanName)
    (hfq : replaceAlts folderQualityAlts ((cleanMovieName x).cleanName) = (cleanMovieName x).cleanName)
    (hyear : ∀ y, yearScan ((cleanMovieName x).cleanName) = some y →
      indexOfSub (natDec y) ((cleanMovieName x).cleanName) = some 0 ∨
      indexOfSub (natDec y) ((cleanMovieName x).cleanName) = none) :
    (cleanMovieName ((cleanMovieName x).cleanName)).cleanName = (cleanMovieName x).cleanName := by
  have hcanon : canonWs ((cleanMovieName x).cleanName) = true := canonWs_cleanName x
  have hdot : ∀ ch ∈ (cleanMovieName x).cleanName, ¬ ch = '.' := by
    intro ch hm
    rcases cleanName_chars x hm with e | ⟨_, hp, _⟩
    · subst e; decide
    · intro e; subst e; simp at hp
  have hparen : ('(' : Char) ∉ (cleanMovieName x).cleanName := by
    intro hm
    rcases cleanName_chars x hm with e | ⟨_, _, hb⟩
    · exact absurd e (by decide)
    · exact absurd hb (by decide)
  have hbrkAll : ∀ ch ∈ (cleanMovieName x).cleanName, isBracketC ch = false := by
    intro ch hm
    rcases cleanName_chars x hm with e | ⟨_, _, hb⟩
    · subst e; decide
    · exact hb
  have hduAll : ∀ ch ∈ (cleanMovieName x).cleanName,
      (decide (ch = '.') || decide (ch = '_')) = false := by
    intro ch hm
    rcases cleanName_chars x hm with e | ⟨_, hp, _⟩
    · subst e; decide
    · exact hp
  generalize hg : (cleanMovieName x).cleanName = c at hep hdash hitw hitd hq hcod haud hlang hfq hyear hcanon hdot hparen hbrkAll hduAll ⊢
  have hext : extStrip c = c := extStrip_eq_self hdot
  have hhy : hasParenYear c = false := hasParenYear_false hparen
  have hcolF : collectionTest c = false := collectionTest_false hparen
  have hstrip : stripLeadNum c = c := stripLeadNum_eq_self hep
  have hbrk : replClassSpace isBracketC c = c := replClassSpace_eq_self hbrkAll
  have hdu : replClassSpace (fun ch => (ch = '.') || (ch = '_')) c = c :=
    replClassSpace_eq_self hduAll
  have hcws : collapseWs c = c := collapseWs_eq_self hcanon
  have htr : trimS c = c := trimS_eq_self hcanon
  simp only [cleanMovieName]
  rw [hext, hhy, hcolF, hstrip, ite_self]
  rw [hdash, hitw, hitd, hq, hcod, haud, hlang, hfq]
  rcases hY : yearScan c with _ | y
  · simp only [hY]
    rw [hbrk, hdu, hcws, htr]
  · rcases hyear y hY with hidx | hidx
    · simp only [hY, hidx]
      rw [if_neg (lt_irrefl 0), hbrk, hdu, hcws, htr]
    · simp only [hY, hidx]
      rw [hbrk, hdu, hcws, htr]

/-- Witness for the amended C6: the spec's own end-to-end example is a
    fixed point of a second cleaning pass. -/
theorem clean_idempotent_nf_witness :
    (cleanMovieName ((cleanMovieName (("The.Matrix.1999.1080p.BluRay.x264-YIFY.mkv").toList)).cleanName)).cleanName
      = (cleanMovieName (("The.Matrix.1999.1080p.BluRay.x264-YIFY.mkv").toList)).cleanName :=
  clean_idempotent_nf (("The.Matrix.1999.1080p.BluRay.x264-YIFY.mkv").toList)
    (by decide) (by decide) (by decide) (by decide) (by decide) (by decide) (by decide)
    (by decide) (by decide) (by intro y hy; rw [show yearScan ((cleanMovieName
      (("The.Matrix.1999.1080p.BluRay.x264-YIFY.mkv").toList)).cleanName) = none from by decide] at hy; exact absurd hy (by simp))

/- Decimal-rendering lemmas for the canonical-name round trip. -/

lemma natDecAux_eq : ∀ {f1 : Nat} {f2 n : Nat}, n < f1 → n < f2 → natDecAux f1 n = natDecAux f2 n := by
  intro f1
  induction f1 with
  | zero => intro f2 n h1 _; omega
  | succ f ih =>
      intro f2 n h1 h2
      cases f2 with
      | zero => omega
      | succ g =>
          rw [natDecAux, natDecAux]
          by_cases hn : n < 10
          · rw [if_pos hn, if_pos hn]
          · rw [if_neg hn, if_neg hn]
            have hd : n / 10 < n := Nat.div_lt_self (by omega) (by omega)
            have hh : natDecAux f (n / 10) = natDecAux g (n / 10) := ih (by omega) (by omega)
            rw [hh]

lemma natDec_lt10 {n : Nat} (h : n < 10) : natDec n = [Nat.digitChar n] := by
  unfold natDec
  rw [natDecAux, if_pos h]

lemma natDec_ge10 {n : Nat} (h : 10 ≤ n) :
    natDec n = natDec (n / 10) ++ [Nat.digitChar (n % 10)] := by
  unfold natDec
  rw [natDecAux, if_neg (by omega)]
  have hd : n / 10 < n := Nat.div_lt_self (by omega) (by omega)
  have hh : natDecAux n (n / 10) = natDecAux (n / 10 + 1) (n / 10) :=
    natDecAux_eq (by omega) (by omega)
  rw [hh]

lemma digitChar_isDigit {n : Nat} (h : n < 10) : isDigitC (Nat.digitChar n) = true := by
  interval_cases n <;> decide

lemma natDec_digits {n : Nat} : ∀ ch ∈ natDec n, isDigitC ch = true := by
  induction n using Nat.strong_induction_on with
  | _ n ih =>
      by_cases h : n < 10
      · rw [natDec_lt10 h]
        intro ch hm
        rcases List.mem_singleton.mp hm with rfl
        exact digitChar_isDigit h
      · rw [natDec_ge10 (by omega)]
        intro ch hm
        rcases List.mem_append.mp hm with hm1 | hm2
        · exact ih (n / 10) (Nat.div_lt_self (by omega) (by omega)) ch hm1
        · rcases List.mem_singleton.mp hm2 with rfl
          exact digitChar_isDigit (Nat.mod_lt _ (by omega))

lemma natDec_ne_nil {n : Nat} : natDec n ≠ [] := by
  by_cases h : n < 10
  · rw [natDec_lt10 h]; simp
  · rw [natDec_ge10 (by omega)]; simp

lemma natDec_len4 {n : Nat} (h1 : 1000 ≤ n) (h2 : n ≤ 9999) : (natDec n).length = 4 := by
  rw [natDec_ge10 (by omega), natDec_ge10 (show 10 ≤ n / 10 by omega),
    natDec_ge10 (show 10 ≤ n / 10 / 10 by omega),
    natDec_lt10 (show n / 10 / 10 / 10 < 10 by omega)]
  simp

lemma toFixed1_chars {t : Nat} : ∀ ch ∈ toFixed1 t, digitOrDotC ch = true := by
  intro ch hm
  unfold toFixed1 at hm
  rcases List.mem_append.mp hm with hm1 | hm2
  · unfold digitOrDotC
    rw [natDec_digits ch hm1]
    rfl
  · rcases List.mem_cons.mp hm2 with rfl | hm3
    · decide
    · rcases List.mem_singleton.mp hm3 with rfl
      unfold digitOrDotC
      rw [digitChar_isDigit (Nat.mod_lt _ (by omega))]
      rfl

lemma toFixed1_ne_nil {t : Nat} : toFixed1 t ≠ [] := by
  unfold toFixed1
  intro h
  exact natDec_ne_nil (List.append_eq_nil.mp h).1

lemma takeWhile_all_stop {p : Char → Bool} :
    ∀ {l r : Str}, (∀ ch ∈ l, p ch = true) → (∀ c, r.head? = some c → p c = false) →
    (l ++ r).takeWhile p = l := by
  intro l
  induction l with
  | nil =>
      intro r _ hr
      cases r with
      | nil => rfl
      | cons c t => simp [List.takeWhile_cons, hr c rfl]
  | cons a l ih =>
      intro r hl hr
      simp only [List.cons_append, List.takeWhile_cons, hl a (List.mem_cons_self _ _), if_true]
      rw [ih (fun ch hm => hl ch (List.mem_cons_of_mem _ hm)) hr]

lemma ne_nil_reverse {l : Str} (h : l ≠ []) : l.reverse ≠ [] := by
  simpa using h

lemma apTest_build (title : Str) (year tenths : Nat) (w : Str)
    (ht1 : title ≠ []) (ht2 : ∀ ch ∈ title, isNlC ch = false)
    (hy1 : 1000 ≤ year) (hy2 : year ≤ 9999)
    (hw1 : w ≠ []) (hw2 : ∀ ch ∈ w, isWordC ch = true) :
    alreadyProcessedTest (buildFileName title year tenths ('.' :: w)) = true := by
  obtain ⟨a, b, c, d, hnd⟩ : ∃ a b c d, natDec year = [a, b, c, d] := by
    have hlen := natDec_len4 hy1 hy2
    rcases hl : natDec year with _ | ⟨a, _ | ⟨b, _ | ⟨c, _ | ⟨d, _ | ⟨e, t⟩⟩⟩⟩⟩ <;>
      rw [hl] at hlen <;> simp at hlen
    exact ⟨a, b, c, d, rfl⟩
  have hrev : (buildFileName title year tenths ('.' :: w)).reverse
      = w.reverse ++ '.' :: ')' :: ((toFixed1 tenths).reverse ++ ' ' :: 'B' :: 'D' :: 'M' :: 'I' :: '(' :: ' ' :: ')' :: d :: c :: b :: a :: '(' :: ' ' :: title.reverse) := by
    simp [buildFileName, hnd, List.reverse_append]
  unfold alreadyProcessedTest apParseRev
  rw [hrev]
  have h1 : ((w.reverse ++ '.' :: ')' :: ((toFixed1 tenths).reverse ++ ' ' :: 'B' :: 'D' :: 'M' :: 'I' :: '(' :: ' ' :: ')' :: d :: c :: b :: a :: '(' :: ' ' :: title.reverse)).takeWhile (fun c => isWordC c)) = w.reverse := by
    apply takeWhile_all_stop
    · intro ch hm; exact hw2 ch (List.mem_reverse.mp hm)
    · intro cH hH
      simp only [List.head?_cons, Option.some.injEq] at hH
      subst hH; decide
  simp only [h1]
  rw [List.drop_left]
  have h2 : (((toFixed1 tenths).reverse ++ ' ' :: 'B' :: 'D' :: 'M' :: 'I' :: '(' :: ' ' :: ')' :: d :: c :: b :: a :: '(' :: ' ' :: title.reverse).takeWhile (fun c => digitOrDotC c)) = (toFixed1 tenths).reverse := by
    apply takeWhile_all_stop
    · intro ch hm; exact toFixed1_chars ch (List.mem_reverse.mp hm)
    · intro cH hH
      simp only [List.head?_cons, Option.some.injEq] at hH
      subst hH; decide
  simp only [h2]
  rw [List.drop_left]
  have hda : isDigitC a = true := natDec_digits a (by rw [hnd]; simp)
  have hdb : isDigitC b = true := natDec_digits b (by rw [hnd]; simp)
  have hdc : isDigitC c = true := natDec_digits c (by rw [hnd]; simp)
  have hdd : isDigitC d = true := natDec_digits d (by rw [hnd]; simp)
  simp only [apAfterRat, hda, hdb, hdc, hdd]
  simp [ne_nil_reverse hw1, ne_nil_reverse ht1, toFixed1_ne_nil]
  exact ⟨by decide, ht2⟩

lemma ripMarker_false {s : Str} (hspace : ' ' ∈ s) :
    ripMarkerNames.contains (upperS s) = false := by
  have hsp : ' ' ∈ upperS s := List.mem_map.2 ⟨' ', hspace, rfl⟩
  cases hc : ripMarkerNames.contains (upperS s) with
  | false => rfl
  | true =>
      have hm : upperS s ∈ ripMarkerNames := by simpa using hc
      simp only [ripMarkerNames, List.mem_cons] at hm
      rcases hm with h | h | h | h
      · rw [h] at hsp; exact absurd hsp (by decide)
      · rw [h] at hsp; exact absurd hsp (by decide)
      · rw [h] at hsp; exact absurd hsp (by decide)
      · exact absurd h (List.not_mem_nil _)

lemma extOf_run {w rest : Str} (hw2 : ∀ ch ∈ w, isWordC ch = true) :
    (w.reverse ++ '.' :: rest).takeWhile (fun c => !(c = '.')) = w.reverse := by
  apply takeWhile_all_stop
  · intro ch hm
    have hword := hw2 ch (List.mem_reverse.mp hm)
    have hne : ch ≠ '.' := by
      intro e; rw [e] at hword; exact absurd hword (by decide)
    simp [hne]
  · intro c hc
    simp only [List.head?_cons, Option.some.injEq] at hc
    subst hc; decide

lemma extOf_build (title : Str) (year tenths : Nat) (w : Str)
    (hw1 : w ≠ []) (hw2 : ∀ ch ∈ w, isWordC ch = true) :
    extOfFile (buildFileName title year tenths ('.' :: w)) = lowerS ('.' :: w) := by
  have hA : buildFileName title year tenths ('.' :: w)
      = (title ++ ' ' :: '(' :: (natDec year ++ ')' :: ' ' :: '(' :: 'I' :: 'M' :: 'D' :: 'B' :: ' '
          :: (toFixed1 tenths ++ [')']))) ++ '.' :: w := by
    simp [buildFileName]
  have hrev : (buildFileName title year tenths ('.' :: w)).reverse
      = w.reverse ++ '.' :: (title ++ ' ' :: '(' :: (natDec year ++ ')' :: ' ' :: '(' :: 'I' :: 'M'
          :: 'D' :: 'B' :: ' ' :: (toFixed1 tenths ++ [')']))).reverse := by
    rw [hA, List.reverse_append, List.reverse_cons, List.append_assoc, List.singleton_append]
  simp only [extOfFile]
  rw [hrev, extOf_run hw2]
  have hwr : w.reverse ≠ [] := ne_nil_reverse hw1
  have hie : (w.reverse).isEmpty = false := by
    cases hr : w.reverse with
    | nil => exact absurd hr hwr
    | cons a as => rfl
  rw [if_neg (show ¬((w.reverse).isEmpty = true) by rw [hie]; simp), List.drop_left]
  simp

/-- Claim C2 (amended): for every title (non-empty, free of line
    terminators), 4-digit year, rating rendered to one decimal, and
    word-character extension, buildFileName produces exactly the
    canonical "Title (Year) (IMDB Rating)" shape followed by the
    extension, and this output is matched by the already-processed
    detector; re-classifying such a filename outside a series context
    returns the byte-identical name as a SingleMovie provided the
    lowercased extension is not one of parseFile's subtitle/audio
    sidecar extensions, whose gate runs before the already-processed
    check. -/
theorem canonical_name_round_trip
    (title : Str) (year tenths : Nat) (w : Str)
    (ht1 : title ≠ []) (ht2 : ∀ ch ∈ title, isNlC ch = false)
    (hy1 : 1000 ≤ year) (hy2 : year ≤ 9999)
    (hw1 : w ≠ []) (hw2 : ∀ ch ∈ w, isWordC ch = true)
    (hsub : subtitleExtensions.contains (lowerS ('.' :: w)) = false) :
    buildFileName title year tenths ('.' :: w)
      = title ++ ' ' :: '(' :: (natDec year ++ ')' :: ' ' :: '(' :: 'I' :: 'M' :: 'D' :: 'B' :: ' ' ::
          (toFixed1 tenths ++ ')' :: '.' :: w))
    ∧ alreadyProcessedTest (buildFileName title year tenths ('.' :: w)) = true
    ∧ parseFileHead (buildFileName title year tenths ('.' :: w)) none
        = ParseOutcome.item ⟨buildFileName title year tenths ('.' :: w), ItemType.SingleMovie⟩ := by
  have h := apTest_build title year tenths w ht1 ht2 hy1 hy2 hw1 hw2
  have hext := extOf_build title year tenths w hw1 hw2
  have hspace : ' ' ∈ buildFileName title year tenths ('.' :: w) := by
    unfold buildFileName
    exact List.mem_append.2 (Or.inr (List.mem_cons_self _ _))
  have hrip := ripMarker_false hspace
  refine ⟨rfl, h, ?_⟩
  simp only [parseFileHead, hrip, hext, hsub]
  simp [apBranch, h]

/-- Witness for C2 at the spec's end-to-end example. -/
theorem canonical_name_round_trip_witness :
    parseFileHead (buildFileName (("The Matrix").toList) 1999 87 ('.' :: ("mkv").toList)) none
      = ParseOutcome.item ⟨buildFileName (("The Matrix").toList) 1999 87 ('.' :: ("mkv").toList),
          ItemType.SingleMovie⟩ :=
  (canonical_name_round_trip (("The Matrix").toList) 1999 87 (("mkv").toList)
    (by decide) (by decide) (by decide) (by decide) (by decide) (by decide) (by decide)).2.2

/-- Counterexample to C2 as stated: parseFile's subtitle/audio sidecar
    gate runs before the already-processed check, so the canonical name
    "Movie (1999) (IMDB 7.5).srt" — which buildFileName produces and the
    detector matches — is classified SubtitleFile, not SingleMovie. -/
theorem c2_counterexample :
    buildFileName (("Movie").toList) 1999 75 ('.' :: ("srt").toList)
      = ("Movie (1999) (IMDB 7.5).srt").toList
    ∧ alreadyProcessedTest (("Movie (1999) (IMDB 7.5).srt").toList) = true
    ∧ parseFileHead (("Movie (1999) (IMDB 7.5).srt").toList) none
        = ParseOutcome.item ⟨("Movie (1999) (IMDB 7.5).srt").toList, ItemType.SubtitleFile⟩
    ∧ ItemType.SubtitleFile ≠ ItemType.SingleMovie :=
  ⟨by decide, by decide, by decide, by decide⟩

/- Lemmas for the renamed-folder short circuit of cleanFolderName. -/

lemma digitVal_digitChar {n : Nat} (h : n < 10) : digitVal (Nat.digitChar n) = n := by
  interval_cases n <;> decide

lemma digitsVal_append_single {l : Str} {x : Char} :
    digitsVal (l ++ [x]) = digitsVal l * 10 + digitVal x := by
  unfold digitsVal
  rw [List.foldl_append]
  rfl

lemma digitsVal_natDec {n : Nat} : digitsVal (natDec n) = n := by
  induction n using Nat.strong_induction_on with
  | _ n ih =>
      by_cases h : n < 10
      · rw [natDec_lt10 h]
        unfold digitsVal
        simp [digitVal_digitChar h]
      · rw [natDec_ge10 (by omega), digitsVal_append_single,
          ih (n / 10) (Nat.div_lt_self (by omega) (by omega)),
          digitVal_digitChar (Nat.mod_lt _ (by omega))]
        omega

lemma trimEndS_eq_self_of_lastNotWs {s : Str} (h : headWsB s.reverse = false) :
    trimEndS s = s := by
  induction s with
  | nil => rfl
  | cons c rest ih =>
      cases hr : rest with
      | nil =>
          subst hr
          have hc : isWsC c = false := by simpa [headWsB] using h
          simp [trimEndS, hc]
      | cons x xs =>
          subst hr
          obtain ⟨y, ys, hye⟩ : ∃ y ys, (x :: xs).reverse = y :: ys := by
            rcases he : (x :: xs).reverse with _ | ⟨y, ys⟩
            · exact absurd (congrArg List.length he) (by simp)
            · exact ⟨y, ys, rfl⟩
          have hrev : headWsB (x :: xs).reverse = false := by
            rw [List.reverse_cons, hye] at h
            rw [hye]
            simpa [headWsB] using h
          have hT : trimEndS (x :: xs) = x :: xs := ih hrev
          by_cases hc : isWsC c
          · rw [trimEndS, if_pos hc, hT]
          · rw [trimEndS, if_neg hc, hT]

lemma trimS_eq_self_of_ends {s : Str} (h1 : headWsB s = false)
    (h2 : headWsB s.reverse = false) : trimS s = s := by
  unfold trimS
  rw [dropWs_eq_self_of_headWsB h1, trimEndS_eq_self_of_lastNotWs h2]

/-- Claim C10: for every folder name of the exact shape
    "Name (YYYY) (IMDB X.X)" (Name non-empty, trimmed, free of line
    terminators; YYYY four digits; the rating a non-empty run of digits
    and dots), cleanFolderName short-circuits in the renamed-folder branch
    and returns cleanName = Name and year = YYYY with season and quality
    undefined; none of the later quality/codec/audio/release-group
    stripping touches Name.  The Russian-season branch cannot fire because
    that pattern requires the name to end in a digit, while this shape
    ends in a closing parenthesis. -/
theorem cleanFolderName_imdb_short_circuit
    (name : Str) (yyyy : Nat) (rat : Str)
    (hn1 : name ≠ []) (hn2 : ∀ ch ∈ name, isNlC ch = false)
    (hn3 : headWsB name = false) (hn4 : headWsB name.reverse = false)
    (hy1 : 1000 ≤ yyyy) (hy2 : yyyy ≤ 9999)
    (hr1 : rat ≠ []) (hr2 : ∀ ch ∈ rat, digitOrDotC ch = true) :
    cleanFolderName (name ++ ' ' :: '(' :: (natDec yyyy ++ ')' :: ' ' :: '(' :: 'I' :: 'M' :: 'D' :: 'B' :: ' ' :: (rat ++ [')'])))
      = ⟨name, name ++ ' ' :: '(' :: (natDec yyyy ++ ')' :: ' ' :: '(' :: 'I' :: 'M' :: 'D' :: 'B' :: ' ' :: (rat ++ [')'])), none, some yyyy, none⟩ := by
  obtain ⟨a, b, c, d, hnd⟩ : ∃ a b c d, natDec yyyy = [a, b, c, d] := by
    have hlen := natDec_len4 hy1 hy2
    rcases hl : natDec yyyy with _ | ⟨a, _ | ⟨b, _ | ⟨c, _ | ⟨d, _ | ⟨e, t⟩⟩⟩⟩⟩ <;>
      rw [hl] at hlen <;> simp at hlen
    exact ⟨a, b, c, d, rfl⟩
  have hda : isDigitC a = true := natDec_digits a (by rw [hnd]; simp)
  have hdb : isDigitC b = true := natDec_digits b (by rw [hnd]; simp)
  have hdc : isDigitC c = true := natDec_digits c (by rw [hnd]; simp)
  have hdd : isDigitC d = true := natDec_digits d (by rw [hnd]; simp)
  have hrev : (name ++ ' ' :: '(' :: (natDec yyyy ++ ')' :: ' ' :: '(' :: 'I' :: 'M' :: 'D' :: 'B' :: ' ' :: (rat ++ [')']))).reverse
      = ')' :: (rat.reverse ++ ' ' :: 'B' :: 'D' :: 'M' :: 'I' :: '(' :: ' ' :: ')' :: d :: c :: b :: a :: '(' :: ' ' :: name.reverse) := by
    simp [hnd, List.reverse_append]
  have hru : ruSeasonParse (name ++ ' ' :: '(' :: (natDec yyyy ++ ')' :: ' ' :: '(' :: 'I' :: 'M' :: 'D' :: 'B' :: ' ' :: (rat ++ [')']))) = none := by
    unfold ruSeasonParse
    rw [hrev]
    simp [List.takeWhile_cons, show isDigitC ')' = false from rfl]
  have hrat : ((rat.reverse ++ ' ' :: 'B' :: 'D' :: 'M' :: 'I' :: '(' :: ' ' :: ')' :: d :: c :: b :: a :: '(' :: ' ' :: name.reverse).takeWhile (fun ch => digitOrDotC ch)) = rat.reverse := by
    apply takeWhile_all_stop
    · intro ch hm; exact hr2 ch (List.mem_reverse.mp hm)
    · intro cH hH
      simp only [List.head?_cons, Option.some.injEq] at hH
      subst hH; decide
  have hdw : dropWs (' ' :: name.reverse) = name.reverse := by
    unfold dropWs
    rw [List.dropWhile_cons]
    simp only [show isWsC ' ' = true from rfl, if_true]
    exact dropWs_eq_self_of_headWsB hn4
  have him : imdbFolderParse (name ++ ' ' :: '(' :: (natDec yyyy ++ ')' :: ' ' :: '(' :: 'I' :: 'M' :: 'D' :: 'B' :: ' ' :: (rat ++ [')']))) = some (name, yyyy) := by
    unfold imdbFolderParse
    rw [hrev]
    dsimp only
    rw [if_pos rfl, hrat]
    have hre : rat.reverse.isEmpty = false := by simpa using ne_nil_reverse hr1
    rw [hre]
    simp only [Bool.false_eq_true, if_false]
    rw [List.drop_left]
    simp only [List.dropWhile_cons, show isWsC ' ' = true from rfl, if_true,
      show isWsC 'B' = false from rfl, show isWsC ')' = false from rfl,
      Bool.false_eq_true, if_false]
    simp only [show decide ('B'.toLower = 'b') = true from by decide,
      show decide ('D'.toLower = 'd') = true from by decide,
      show decide ('M'.toLower = 'm') = true from by decide,
      show decide ('I'.toLower = 'i') = true from by decide,
      show decide (('(' : Char) = '(') = true from by decide,
      show decide ((')' : Char) = ')') = true from by decide,
      hda, hdb, hdc, hdd, Bool.and_self, Bool.true_and, Bool.and_true, if_true]
    unfold lazyCapture
    simp only [show List.dropWhile (fun c => isWsC c) (' ' :: name.reverse) = name.reverse from hdw]
    have hnre : name.reverse.isEmpty = false := by simpa using ne_nil_reverse hn1
    rw [hnre]
    simp only [Bool.false_eq_true, if_false, List.reverse_reverse]
    have hall : (name.all (fun ch => !isNlC ch)) = true := by
      rw [List.all_eq_true]
      intro ch hm
      simp [hn2 ch hm]
    rw [hall]
    have hdv : digitsVal [a, b, c, d] = yyyy := by
      rw [← hnd]; exact digitsVal_natDec
    simp only [decide_True, if_true, Option.map_some, trimS_eq_self_of_ends hn3 hn4, hdv]
    simp [trimS_eq_self_of_ends hn3 hn4]
  unfold cleanFolderName
  rw [hru, him]

/-- Witness for C10 at a concrete renamed folder. -/
theorem cleanFolderName_imdb_short_circuit_witness :
    cleanFolderName ((("My Show").toList) ++ ' ' :: '(' :: (natDec 2021 ++ ')' :: ' ' :: '(' :: 'I' :: 'M' :: 'D' :: 'B' :: ' ' :: ((("8.1").toList) ++ [')'])))
      = ⟨("My Show").toList, (("My Show").toList) ++ ' ' :: '(' :: (natDec 2021 ++ ')' :: ' ' :: '(' :: 'I' :: 'M' :: 'D' :: 'B' :: ' ' :: ((("8.1").toList) ++ [')'])), none, some 2021, none⟩ :=
  cleanFolderName_imdb_short_circuit (("My Show").toList) 2021 (("8.1").toList)
    (by decide) (by decide) (by decide) (by decide) (by decide) (by decide) (by decide) (by decide)

/-- Claim C8: a folder whose immediate entries include a rip-structure
    marker directory is classified as a rip root and never descended into
    — the rip check runs before any episode-pattern check — even when the
    folder also holds two or more episode-named video files that satisfy
    the TV-series heuristic on their own.  The concrete conjuncts exhibit
    such a folder: both predicates hold, and the scan emits exactly the
    one folder record and nothing from inside it. -/
theorem bdrip_precedence :
    (∀ (dirPath name : Str) (children : List Fs), isBDRipFolder children = true →
      scanEntry dirPath (Fs.dir name children)
        = [⟨dirPath ++ '/' :: name, dirPath, name, [], true, false⟩])
    ∧ isBDRipFolder [Fs.dir (("BDMV").toList) [], Fs.file (("01. Ep One.mkv").toList),
        Fs.file (("02. Ep Two.mkv").toList)] = true
    ∧ isTVSeriesFolder (("Rip Folder").toList) [Fs.dir (("BDMV").toList) [],
        Fs.file (("01. Ep One.mkv").toList), Fs.file (("02. Ep Two.mkv").toList)] = true
    ∧ scanDirectory (("/movies").toList) [Fs.dir (("Rip Folder").toList)
        [Fs.dir (("BDMV").toList) [], Fs.file (("01. Ep One.mkv").toList),
         Fs.file (("02. Ep Two.mkv").toList)]]
        = [⟨("/movies/Rip Folder").toList, ("/movies").toList, ("Rip Folder").toList, [],
            true, false⟩] := by
  refine ⟨?_, by decide, by decide, by decide⟩
  intro dirPath name children h
  unfold scanEntry
  rw [h]
  simp

/-- Witness for C8: the universal branch applied to the concrete rip
    folder. -/
theorem bdrip_precedence_witness :
    scanEntry (("/movies").toList) (Fs.dir (("Rip Folder").toList)
        [Fs.dir (("BDMV").toList) [], Fs.file (("01. Ep One.mkv").toList),
         Fs.file (("02. Ep Two.mkv").toList)])
      = [⟨("/movies/Rip Folder").toList, ("/movies").toList, ("Rip Folder").toList, [],
          true, false⟩] :=
  bdrip_precedence.1 (("/movies").toList) (("Rip Folder").toList)
    [Fs.dir (("BDMV").toList) [], Fs.file (("01. Ep One.mkv").toList),
     Fs.file (("02. Ep Two.mkv").toList)] (by decide)

/- Logarithm facts for the findBestMatch scores. -/

lemma logb_ten_hundred : Real.logb 10 100 = 2 := by
  have h100 : (100 : ℝ) = 10 ^ (2 : ℕ) := by norm_num
  rw [Real.logb, h100, Real.log_pow]
  have h10 : Real.log 10 ≠ 0 := ne_of_gt (Real.log_pos (by norm_num))
  field_simp

lemma log_hundred_gt_three : (3 : ℝ) < Real.log 100 := by
  have he : Real.exp 3 < 100 := by
    have h1 := Real.exp_one_lt_d9
    have h3 : Real.exp 3 = Real.exp 1 * Real.exp 1 * Real.exp 1 := by
      rw [← Real.exp_add, ← Real.exp_add]; norm_num
    have hp := Real.exp_pos 1
    nlinarith
  exact (Real.lt_log_iff_exp_lt (by norm_num)).2 he

lemma codeScore_mvA : codeScore mvA = 200 := by
  simp only [codeScore, mvA]
  rw [if_neg (by decide)]
  norm_num [logb_ten_hundred]

lemma codeScore_mvB : codeScore mvB = 300 := by
  simp only [codeScore, mvB]
  rw [if_neg (by decide)]
  norm_num [Real.logb_one]

lemma specScore_mvB_le : specScore mvB ≤ specScore mvA := by
  have h3 := log_hundred_gt_three
  simp only [specScore, mvA, mvB]
  rw [if_neg (by decide), if_neg (by decide)]
  norm_num [Real.log_one]
  nlinarith

/- The head of the stable descending sort is the first maximum. -/

lemma insertDesc_head_cons (f : TMDbMovie → ℝ) (x y : TMDbMovie) (ys : List TMDbMovie) :
    (insertDesc f x (y :: ys)).head? = some (if f y ≤ f x then x else y) := by
  by_cases h : f y ≤ f x <;> simp [insertDesc, h]

lemma sortDesc_first_max (f : TMDbMovie → ℝ) :
    ∀ l : List TMDbMovie, l ≠ [] →
      ∃ m l1 l2, (sortDesc f l).head? = some m ∧ l = l1 ++ m :: l2 ∧
        (∀ a ∈ l1, f a < f m) ∧ (∀ a ∈ l, f a ≤ f m) := by
  intro l
  induction l with
  | nil => intro h; exact absurd rfl h
  | cons x xs ih =>
      intro _
      cases xs with
      | nil =>
          refine ⟨x, [], [], by simp [sortDesc, insertDesc], rfl, by simp, ?_⟩
          intro a ha
          simp at ha
          subst ha
          exact le_refl _
      | cons z zs =>
          obtain ⟨m, l1, l2, hh, hdec, hlt, hle⟩ := ih (by simp)
          have hstep : sortDesc f (x :: z :: zs) = insertDesc f x (sortDesc f (z :: zs)) := rfl
          rcases hs : sortDesc f (z :: zs) with _ | ⟨w, ws⟩
          · rw [hs] at hh; simp at hh
          · rw [hs] at hh
            simp at hh
            subst hh
            by_cases hc : f w ≤ f x
            · refine ⟨x, [], z :: zs, ?_, rfl, by simp, ?_⟩
              · rw [hstep, hs, insertDesc_head_cons, if_pos hc]
              · intro a ha
                rcases List.mem_cons.1 ha with h1 | h2
                · subst h1; exact le_refl _
                · exact le_trans (hle a h2) hc
            · push_neg at hc
              refine ⟨w, x :: l1, l2, ?_, ?_, ?_, ?_⟩
              · rw [hstep, hs, insertDesc_head_cons, if_neg (not_le.mpr hc)]
              · rw [List.cons_append, ← hdec]
              · intro a ha
                rcases List.mem_cons.1 ha with h1 | h2
                · subst h1; exact hc
                · exact hlt a h2
              · intro a ha
                rcases List.mem_cons.1 ha with h1 | h2
                · subst h1; exact le_of_lt hc
                · exact hle a h2

lemma isEmpty_false_ne_nil {l : List TMDbMovie} (h : l.isEmpty = false) : l ≠ [] := by
  cases l with
  | nil => simp at h
  | cons a as => simp

lemma candPool_ne_nil (results : List TMDbMovie) (t : Str) (y : Option Nat)
    (h : results ≠ []) : candPool results t y ≠ [] := by
  cases y with
  | none =>
      simp only [candPool]
      split_ifs with h1 h2
      · exact isEmpty_false_ne_nil h1
      · exact isEmpty_false_ne_nil h2
      · exact h
  | some yr =>
      simp only [candPool]
      split_ifs <;>
        first
          | exact isEmpty_false_ne_nil (by assumption)
          | exact h

/-- Claim C1 (amended): for every non-empty TMDb result list, after the
    candidate pool and optional year filter are applied, findBestMatch
    scores each remaining candidate as +1000 if its original language is
    English, plus log10(max(voteCount,1))*100, plus popularity*0.5, plus
    rating*5, and returns the candidate with the highest score, ties
    broken by the provider's original ordering (stable sort).  The claim
    as stated says ln where the source computes Math.log10. -/
theorem findBestMatch_first_max (results : List TMDbMovie) (t : Str) (y : Option Nat)
    (h : results ≠ []) :
    ∃ m l1 l2,
      findBestMatch results t y = some m ∧
      candPool results t y = l1 ++ m :: l2 ∧
      (∀ a ∈ l1, codeScore a < codeScore m) ∧
      (∀ a ∈ candPool results t y, codeScore a ≤ codeScore m) := by
  obtain ⟨m, l1, l2, hh, hdec, hlt, hle⟩ :=
    sortDesc_first_max codeScore (candPool results t y) (candPool_ne_nil results t y h)
  refine ⟨m, l1, l2, ?_, hdec, hlt, hle⟩
  have hne : results.isEmpty = false := by
    cases results with
    | nil => exact absurd rfl h
    | cons a as => rfl
  unfold findBestMatch
  rw [if_neg (show ¬(results.isEmpty = true) by simp [hne])]
  exact hh

/-- Witness for C1: the theorem applied to a one-element result list. -/
theorem findBestMatch_first_max_witness :
    ∃ m l1 l2,
      findBestMatch [mvA] (("Solaris").toList) none = some m ∧
      candPool [mvA] (("Solaris").toList) none = l1 ++ m :: l2 ∧
      (∀ a ∈ l1, codeScore a < codeScore m) ∧
      (∀ a ∈ candPool [mvA] (("Solaris").toList) none, codeScore a ≤ codeScore m) :=
  findBestMatch_first_max [mvA] (("Solaris").toList) none (by simp)

/-- Counterexample to C1 as stated: under the natural-log scoring the
    claim describes, mvA (a hundred votes, score 100*ln 100 > 300)
    outranks mvB (popularity 600, score 300); the code's base-10 scoring
    gives mvA only 200, so findBestMatch returns mvB while the ln-ranked
    selection returns mvA. -/
theorem c1_counterexample :
    findBestMatch [mvA, mvB] (("Solaris").toList) none = some mvB ∧
    specBestMatch [mvA, mvB] (("Solaris").toList) none = some mvA ∧
    mvB ≠ mvA := by
  have hpool : candPool [mvA, mvB] (("Solaris").toList) none = [mvA, mvB] := rfl
  have hcode : codeScore mvA < codeScore mvB := by
    rw [codeScore_mvA, codeScore_mvB]; norm_num
  have hspec : specScore mvB ≤ specScore mvA := specScore_mvB_le
  refine ⟨?_, ?_, ?_⟩
  · unfold findBestMatch
    rw [if_neg (show ¬(([mvA, mvB] : List TMDbMovie).isEmpty = true) by simp), hpool]
    have h1 : sortDesc codeScore [mvA, mvB] = insertDesc codeScore mvA [mvB] := rfl
    rw [h1]
    show (if codeScore mvB ≤ codeScore mvA then mvA :: mvB :: []
          else mvB :: insertDesc codeScore mvA []).head? = some mvB
    rw [if_neg (not_le.mpr hcode)]
    rfl
  · unfold specBestMatch
    rw [if_neg (show ¬(([mvA, mvB] : List TMDbMovie).isEmpty = true) by simp), hpool]
    have h2 : sortDesc specScore [mvA, mvB] = insertDesc specScore mvA [mvB] := rfl
    rw [h2]
    show (if specScore mvB ≤ specScore mvA then mvA :: mvB :: []
          else mvB :: insertDesc specScore mvA []).head? = some mvA
    rw [if_pos hspec]
    rfl
  · intro e
    have hvc := congrArg TMDbMovie.vote_count e
    simp [mvA, mvB] at hvc

/- The reconciliation diff of markDeletedMovies. -/

lemma markDM_fold (cur : List Str) :
    ∀ (ps : List Str) (c : Catalog) (n : Nat),
      ps.foldl (fun acc p => if cur.contains p then acc
                 else (markAsDeleted acc.1 p, acc.2 + 1)) (c, n)
        = (c.map (fun e =>
             if e.path ∈ ps.filter (fun q => !cur.contains q)
             then ⟨e.path, EStatus.deleted, e.msg⟩ else e),
           n + (ps.filter (fun q => !cur.contains q)).length) := by
  intro ps
  induction ps with
  | nil =>
      intro c n
      simp
  | cons p rest ih =>
      intro c n
      rw [List.foldl_cons]
      by_cases hcp : cur.contains p = true
      · have hstep : (if cur.contains p then (c, n)
            else (markAsDeleted c p, n + 1)) = (c, n) := if_pos hcp
        have hpm : p ∈ cur := by simpa using hcp
        have hf : (p :: rest).filter (fun q => !cur.contains q)
            = rest.filter (fun q => !cur.contains q) := by
          simp [List.filter_cons, hpm]
        show (rest.foldl (fun acc p => if cur.contains p then acc
              else (markAsDeleted acc.1 p, acc.2 + 1))
              (if cur.contains p then (c, n) else (markAsDeleted c p, n + 1))) = _
        rw [hstep, ih, hf]
      · have hcp' : cur.contains p = false := by
          cases h : cur.contains p with
          | true => exact absurd h hcp
          | false => rfl
        have hstep : (if cur.contains p then (c, n)
            else (markAsDeleted c p, n + 1)) = (markAsDeleted c p, n + 1) := by
          rw [if_neg]
          rw [hcp']
          simp
        have hpm : p ∉ cur := by simpa using hcp'
        have hf : (p :: rest).filter (fun q => !cur.contains q)
            = p :: rest.filter (fun q => !cur.contains q) := by
          simp [List.filter_cons, hpm]
        show (rest.foldl (fun acc p => if cur.contains p then acc
              else (markAsDeleted acc.1 p, acc.2 + 1))
              (if cur.contains p then (c, n) else (markAsDeleted c p, n + 1))) = _
        rw [hstep, ih, hf]
        simp only [Prod.mk.injEq]
        constructor
        · rw [markAsDeleted, List.map_map]
          apply List.map_congr_left
          intro e _
          by_cases hep : e.path = p
          · simp [Function.comp, hep]
          · simp [Function.comp, hep]
        · simp [Nat.add_assoc, Nat.add_comm 1]

lemma path_active_iff (cat : Catalog) (hnd : (cat.map CatEntry.path).Nodup)
    {e : CatEntry} (he : e ∈ cat) :
    e.path ∈ getAllActivePaths cat ↔ e.status = EStatus.active := by
  constructor
  · intro h
    unfold getAllActivePaths at h
    obtain ⟨a, haf, hap⟩ := List.mem_map.1 h
    obtain ⟨ham, hab⟩ := List.mem_filter.1 haf
    have hae : a = e := List.inj_on_of_nodup_map hnd ham he hap
    subst hae
    exact of_decide_eq_true hab
  · intro h
    unfold getAllActivePaths
    exact List.mem_map.2 ⟨e, List.mem_filter.2 ⟨he, decide_eq_true h⟩, rfl⟩

lemma marked_map_eq (cat : Catalog) (cur : List Str)
    (hnd : (cat.map CatEntry.path).Nodup) :
    cat.map (fun e => if e.path ∈ (getAllActivePaths cat).filter (fun q => !cur.contains q)
                      then ⟨e.path, EStatus.deleted, e.msg⟩ else e)
      = cat.map (fun e => if e.status = EStatus.active ∧ cur.contains e.path = false
                          then ⟨e.path, EStatus.deleted, e.msg⟩ else e) := by
  apply List.map_congr_left
  intro e he
  have hiff := path_active_iff cat hnd he
  by_cases hm : e.path ∈ (getAllActivePaths cat).filter (fun q => !cur.contains q)
  · rw [if_pos hm]
    obtain ⟨hmem, hcur⟩ := List.mem_filter.1 hm
    have hcf : cur.contains e.path = false := by
      cases h : cur.contains e.path with
      | true => rw [h] at hcur; exact absurd hcur (by decide)
      | false => rfl
    rw [if_pos ⟨hiff.1 hmem, hcf⟩]
  · rw [if_neg hm]
    by_cases hc : e.status = EStatus.active ∧ cur.contains e.path = false
    · exact absurd (List.mem_filter.2 ⟨hiff.2 hc.1, by rw [hc.2]; rfl⟩) hm
    · rw [if_neg hc]

lemma marked_count_eq (cat : Catalog) (cur : List Str) :
    ((getAllActivePaths cat).filter (fun q => !cur.contains q)).length
      = (cat.filter (fun e =>
          decide (e.status = EStatus.active) && !cur.contains e.path)).length := by
  induction cat with
  | nil => rfl
  | cons e rest ih =>
      by_cases ha : e.status = EStatus.active <;>
        by_cases hc : e.path ∈ cur <;>
          simpa [getAllActivePaths, List.filter_cons, ha, hc] using ih

/-- Claim C3: over a catalog whose paths are unique (the store declares
    currentPath unique), markDeletedMovies flips exactly the active
    entries whose path is not in the scan's live-path set to deleted,
    leaves every other entry untouched, removes nothing (the length is
    preserved), and returns the count M of flipped entries. -/
theorem markDeletedMovies_diff (cat : Catalog) (cur : List Str)
    (hnd : (cat.map CatEntry.path).Nodup) :
    (markDeletedMovies cat cur).1
        = cat.map (fun e =>
            if e.status = EStatus.active ∧ cur.contains e.path = false
            then ⟨e.path, EStatus.deleted, e.msg⟩ else e)
    ∧ (markDeletedMovies cat cur).1.length = cat.length
    ∧ (markDeletedMovies cat cur).2
        = (cat.filter (fun e =>
            decide (e.status = EStatus.active) && !cur.contains e.path)).length := by
  have hfold := markDM_fold cur (getAllActivePaths cat) cat 0
  unfold markDeletedMovies
  rw [hfold]
  refine ⟨?_, ?_, ?_⟩
  · exact marked_map_eq cat cur hnd
  · simp
  · show 0 + ((getAllActivePaths cat).filter (fun q => !cur.contains q)).length = _
    rw [Nat.zero_add]
    exact marked_count_eq cat cur

/-- Witness for C3: a catalog with two active entries and one error
    entry, of which one active path is still live. -/
theorem markDeletedMovies_diff_witness :
    (markDeletedMovies
        [⟨("/a").toList, EStatus.active, []⟩, ⟨("/b").toList, EStatus.active, []⟩,
         ⟨("/c").toList, EStatus.error, []⟩] [("/a").toList]).1
        = ([⟨("/a").toList, EStatus.active, []⟩, ⟨("/b").toList, EStatus.active, []⟩,
            ⟨("/c").toList, EStatus.error, []⟩] : Catalog).map (fun e =>
            if e.status = EStatus.active ∧ ([("/a").toList] : List Str).contains e.path = false
            then ⟨e.path, EStatus.deleted, e.msg⟩ else e)
    ∧ (markDeletedMovies
        [⟨("/a").toList, EStatus.active, []⟩, ⟨("/b").toList, EStatus.active, []⟩,
         ⟨("/c").toList, EStatus.error, []⟩] [("/a").toList]).1.length
        = ([⟨("/a").toList, EStatus.active, []⟩, ⟨("/b").toList, EStatus.active, []⟩,
            ⟨("/c").toList, EStatus.error, []⟩] : Catalog).length
    ∧ (markDeletedMovies
        [⟨("/a").toList, EStatus.active, []⟩, ⟨("/b").toList, EStatus.active, []⟩,
         ⟨("/c").toList, EStatus.error, []⟩] [("/a").toList]).2
        = (([⟨("/a").toList, EStatus.active, []⟩, ⟨("/b").toList, EStatus.active, []⟩,
             ⟨("/c").toList, EStatus.error, []⟩] : Catalog).filter (fun e =>
            decide (e.status = EStatus.active)
              && !([("/a").toList] : List Str).contains e.path)).length :=
  markDeletedMovies_diff
    [⟨("/a").toList, EStatus.active, []⟩, ⟨("/b").toList, EStatus.active, []⟩,
     ⟨("/c").toList, EStatus.error, []⟩] [("/a").toList] (by decide)

/- The title-mismatch quarantine and the never-aborting scan loop. -/

lemma updFirstAt_mem {p message : Str} :
    ∀ (repo : Catalog), (∃ x ∈ repo, x.path = p) →
      ∃ e ∈ updFirstAt repo p message,
        e.path = p ∧ e.status = EStatus.error ∧ e.msg = message := by
  intro repo
  induction repo with
  | nil =>
      intro h
      obtain ⟨x, hx, _⟩ := h
      exact absurd hx (List.not_mem_nil x)
  | cons a rest ih =>
      intro h
      by_cases hap : a.path = p
      · refine ⟨⟨a.path, EStatus.error, message⟩, ?_, hap, rfl, rfl⟩
        rw [updFirstAt, if_pos hap]
        exact List.mem_cons_self _ _
      · obtain ⟨x, hx, hxp⟩ := h
        rcases List.mem_cons.1 hx with he | hrest
        · exact absurd (he ▸ hxp) hap
        · obtain ⟨e, hem, hfields⟩ := ih ⟨x, hrest, hxp⟩
          refine ⟨e, ?_, hfields⟩
          rw [updFirstAt, if_neg hap]
          exact List.mem_cons_of_mem a hem

lemma createErrorMovie_mem (repo : Catalog) (p message : Str) :
    ∃ e ∈ createErrorMovie repo p message,
      e.path = p ∧ e.status = EStatus.error ∧ e.msg = message := by
  unfold createErrorMovie findByPath
  cases hf : repo.find? (fun e => decide (e.path = p)) with
  | none => exact ⟨⟨p, EStatus.error, message⟩, by simp, rfl, rfl, rfl⟩
  | some a =>
      apply updFirstAt_mem
      have ham : a ∈ repo := List.mem_of_find?_eq_some hf
      have hpa := List.find?_some hf
      have hap : a.path = p := of_decide_eq_true hpa
      exact ⟨a, ham, hap⟩

lemma scanLoop_scanned (proc : MovieFileInfo → ScanSt → ScanSt × Bool)
    (hs : ∀ f st, ((proc f st).1).scanned = st.scanned) :
    ∀ (files : List MovieFileInfo) (st0 : ScanSt),
      (scanLoop proc files st0).scanned = st0.scanned + files.length := by
  intro files
  induction files with
  | nil => intro st0; simp [scanLoop]
  | cons f rest ih =>
      intro st0
      simp only [scanLoop]
      rw [ih]
      split_ifs with hp <;> simp [hs] <;> omega

/-- Claim C4: when the title-match validation gate rejects the
    resolver's candidate (neither title matches), processMovieFile
    writes an error entry carrying the title-mismatch reason for the
    file's path, counts one error, and returns from the item; and the
    scanMovies loop, for every per-item processor, still counts every
    file (the scan completes and returns its result), a thrown item
    adding one error and the loop continuing with the rest. -/
theorem title_gate_and_scan_continues :
    (∀ (cleanName titleF origF : Str) (fi : MovieFileInfo) (st : ScanSt),
        isTitleMatch cleanName titleF = false → isTitleMatch cleanName origF = false →
        titleGate cleanName titleF origF fi st
          = (⟨st.scanned, st.errors + 1, st.currentPaths,
              createErrorMovie st.repo fi.fullPath (titleMismatchMsg titleF cleanName)⟩, true)
          ∧ ∃ e ∈ createErrorMovie st.repo fi.fullPath (titleMismatchMsg titleF cleanName),
              e.path = fi.fullPath ∧ e.status = EStatus.error
                ∧ e.msg = titleMismatchMsg titleF cleanName)
    ∧ (∀ (proc : MovieFileInfo → ScanSt → ScanSt × Bool) (files : List MovieFileInfo)
          (st0 : ScanSt),
        (∀ f st, ((proc f st).1).scanned = st.scanned) →
        (scanLoop proc files st0).scanned = st0.scanned + files.length)
    ∧ (∀ (proc : MovieFileInfo → ScanSt → ScanSt × Bool) (f : MovieFileInfo)
          (rest : List MovieFileInfo) (st : ScanSt),
        (proc f ⟨st.scanned + 1, st.errors, st.currentPaths ++ [f.fullPath], st.repo⟩).2 = true →
        scanLoop proc (f :: rest) st
          = scanLoop proc rest
              ⟨(proc f ⟨st.scanned + 1, st.errors, st.currentPaths ++ [f.fullPath],
                  st.repo⟩).1.scanned,
               (proc f ⟨st.scanned + 1, st.errors, st.currentPaths ++ [f.fullPath],
                  st.repo⟩).1.errors + 1,
               (proc f ⟨st.scanned + 1, st.errors, st.currentPaths ++ [f.fullPath],
                  st.repo⟩).1.currentPaths,
               (proc f ⟨st.scanned + 1, st.errors, st.currentPaths ++ [f.fullPath],
                  st.repo⟩).1.repo⟩) := by
  refine ⟨?_, ?_, ?_⟩
  · intro cleanName titleF origF fi st h1 h2
    constructor
    · unfold titleGate
      rw [h1, h2]
      rfl
    · exact createErrorMovie_mem st.repo fi.fullPath (titleMismatchMsg titleF cleanName)
  · intro proc files st0 hs
    exact scanLoop_scanned proc hs files st0
  · intro proc f rest st hthrow
    simp only [scanLoop]
    rw [if_pos hthrow]

/-- Witness for C4: the gate applied to the spec's own example, searching
    "The Ninth Gate" and finding "Pi". -/
theorem title_gate_and_scan_continues_witness :
    titleGate (("The Ninth Gate").toList) (("Pi").toList) (("Pi").toList)
        ⟨("/m/f.mkv").toList, ("/m").toList, ("f.mkv").toList, (".mkv").toList, false, false⟩
        ⟨0, 0, [], []⟩
      = (⟨0, 0 + 1, [],
          createErrorMovie [] (("/m/f.mkv").toList)
            (titleMismatchMsg (("Pi").toList) (("The Ninth Gate").toList))⟩, true)
      ∧ ∃ e ∈ createErrorMovie [] (("/m/f.mkv").toList)
            (titleMismatchMsg (("Pi").toList) (("The Ninth Gate").toList)),
          e.path = ("/m/f.mkv").toList ∧ e.status = EStatus.error
            ∧ e.msg = titleMismatchMsg (("Pi").toList) (("The Ninth Gate").toList) :=
  title_gate_and_scan_continues.1 (("The Ninth Gate").toList) (("Pi").toList) (("Pi").toList)
    ⟨("/m/f.mkv").toList, ("/m").toList, ("f.mkv").toList, (".mkv").toList, false, false⟩
    ⟨0, 0, [], []⟩ (by decide) (by decide)
